import Mathlib

/-!
Verification of the ReelDL native-messaging host (`reeldl_native_host.py`).

The development is a shallow embedding of the Python source:

* Python byte strings become `List Nat` (each entry one byte value);
* Python `str` values become `List Char` (Lean `Char` is a Unicode scalar);
* JSON values (`json.dumps` / `json.loads`) become the inductive `Json`
  together with the executable encoder `pyJsonDumps` and parser
  `pyJsonLoads`, modelled on CPython's `json` module with its default
  options (`ensure_ascii=True`, separators `", "` and `": "`);
* `sys.stdin.buffer` is an explicit byte-list state threaded through
  `read_native_message`;
* the operating system (`os.path.exists`, `subprocess.run`, `os.name`) is a
  record `Env` of oracles, and child-process launches are recorded as an
  explicit `Spawn` trace.

Known deliberate modelling limits (each one marked at its definition):
JSON float literals and the `NaN`/`Infinity` specials are not representable
(`Json.num` is an `Int`), and lone UTF-16 surrogate escapes are rejected by
the parser because a Lean `Char` cannot hold a surrogate code point.  No
theorem below exercises those inputs.
-/

namespace ReelDL

/-- Python `str` values are modelled as lists of Unicode scalar values. -/
abbrev Str := List Char

/-! ### Small character helpers -/

/-- Decimal digit test, `'0' ≤ c ≤ '9'` (ASCII 48..57). -/
def isDig (c : Char) : Bool := 48 ≤ c.toNat && c.toNat ≤ 57

/-- The whitespace accepted by CPython's JSON scanner: space, tab, LF, CR. -/
def isJsonWs (c : Char) : Bool := c = ' ' || c = '\t' || c = '\n' || c = '\r'

/-- Whitespace for Python `str.strip()` with no arguments (the code points
for which `Py_UNICODE_ISSPACE` holds). -/
def isPySpace (c : Char) : Bool :=
  let n := c.toNat
  (9 ≤ n && n ≤ 13) || (28 ≤ n && n ≤ 32) || n = 0x85 || n = 0xA0 ||
  n = 0x1680 || (0x2000 ≤ n && n ≤ 0x200A) || n = 0x2028 || n = 0x2029 ||
  n = 0x202F || n = 0x205F || n = 0x3000

/-- Drop leading characters satisfying `p`. -/
def dropLeading (p : Char → Bool) : Str → Str
  | [] => []
  | c :: cs => if p c then dropLeading p cs else c :: cs

/-- Python `s.strip()`: remove whitespace from both ends. -/
def pyStrip (s : Str) : Str :=
  ((dropLeading isPySpace s).reverse |> dropLeading isPySpace).reverse

/-- Skip JSON whitespace (the scanner's inter-token skipping). -/
def skipWs : Str → Str := dropLeading isJsonWs

/-! ### Decimal and hexadecimal digits -/

/-- Decimal digits of `n`, most significant first; `fuel`-driven so that it
is structurally recursive (callers pass `fuel > n`). -/
def natDecGo : Nat → Nat → Str
  | 0, _ => []
  | fuel + 1, n =>
    if n < 10 then [Nat.digitChar n]
    else natDecGo fuel (n / 10) ++ [Nat.digitChar (n % 10)]

/-- Decimal digits of a natural number, as Python's `repr` writes them. -/
def natDec (n : Nat) : Str := natDecGo (n + 1) n

/-- Decimal digits of an integer, as `json.dumps` writes an `int`. -/
def intDec (n : Int) : Str :=
  if n < 0 then '-' :: natDec n.natAbs else natDec n.natAbs

/-- Value of a decimal digit string, most significant first. -/
def decToNat (ds : Str) : Nat := ds.foldl (fun a c => 10 * a + (c.toNat - 48)) 0

/-- Lowercase hexadecimal digit for `m < 16`, as CPython's
`unicode_escape` helper writes it inside a `\uXXXX` sequence. -/
def hexChar (m : Nat) : Char :=
  if m < 10 then Nat.digitChar m else Char.ofNat (87 + m)

/-- Four lowercase hex digits of `n < 0x10000`. -/
def hex4 (n : Nat) : Str :=
  [hexChar (n / 4096 % 16), hexChar (n / 256 % 16), hexChar (n / 16 % 16),
   hexChar (n % 16)]

/-- Value of one hexadecimal digit (upper or lower case), as the JSON
string scanner accepts it after `\u`. -/
def hexVal (c : Char) : Option Nat :=
  if 48 ≤ c.toNat && c.toNat ≤ 57 then some (c.toNat - 48)
  else if 97 ≤ c.toNat && c.toNat ≤ 102 then some (c.toNat - 87)
  else if 65 ≤ c.toNat && c.toNat ≤ 70 then some (c.toNat - 55)
  else none

/-! ### The JSON data model

A `Message` in the spec is a string-keyed mapping; `json.loads` produces
nested dictionaries, lists, strings, numbers, booleans and `None`.  Python
dictionaries preserve insertion order and are modelled as association
lists; `json.loads` lets a later duplicate key overwrite an earlier one,
which `pyDictGet` reproduces by taking the last binding. -/

inductive Json where
  | null
  | bool (b : Bool)
  | num (n : Int)
  | str (s : Str)
  | arr (xs : List Json)
  | obj (fields : List (Str × Json))

/-- Python `d.get(key)` on a dictionary decoded from JSON: the last binding
for `key` wins (later duplicate keys overwrite earlier ones on insertion),
and a missing key gives `None` (here `none`). -/
def pyDictGet (fields : List (Str × Json)) (key : Str) : Option Json :=
  match fields with
  | [] => none
  | (k, v) :: tl =>
    match pyDictGet tl key with
    | some w => some w
    | none => if k = key then some v else none

/-! ### The encoder: `json.dumps` with default options -/

/-- How `json.dumps` (with `ensure_ascii=True`, the default) writes one
character of a string: the two-character escapes from `ESCAPE_DCT`,
printable ASCII verbatim, and `\uXXXX` (a surrogate pair for astral code
points) for everything else. -/
def escapeChar (c : Char) : Str :=
  if c = '"' then ['\\', '"']
  else if c = '\\' then ['\\', '\\']
  else if c = '\x08' then ['\\', 'b']
  else if c = '\t' then ['\\', 't']
  else if c = '\n' then ['\\', 'n']
  else if c = '\x0c' then ['\\', 'f']
  else if c = '\r' then ['\\', 'r']
  else if 32 ≤ c.toNat && c.toNat ≤ 126 then [c]
  else if c.toNat < 0x10000 then '\\' :: 'u' :: hex4 c.toNat
  else
    '\\' :: 'u' :: hex4 (0xD800 + (c.toNat - 0x10000) / 0x400) ++
    '\\' :: 'u' :: hex4 (0xDC00 + (c.toNat - 0x10000) % 0x400)

/-- Escaped body of a JSON string literal (without the enclosing quotes). -/
def escBody (s : Str) : Str := s.flatMap escapeChar

/-- A JSON string literal as `json.dumps` writes it. -/
def encodeStr (s : Str) : Str := '"' :: escBody s ++ ['"']

mutual
/-- `json.dumps(v)` with the default separators `", "` and `": "`. -/
def encode : Json → Str
  | .null => "null".data
  | .bool true => "true".data
  | .bool false => "false".data
  | .num n => intDec n
  | .str s => encodeStr s
  | .arr xs => '[' :: encodeItems xs ++ [']']
  | .obj fs => '{' :: encodeFields fs ++ ['}']
/-- Array elements joined by `", "`. -/
def encodeItems : List Json → Str
  | [] => []
  | [x] => encode x
  | x :: y :: tl => encode x ++ ',' :: ' ' :: encodeItems (y :: tl)
/-- Object members, each `"key": value`, joined by `", "`. -/
def encodeFields : List (Str × Json) → Str
  | [] => []
  | [(k, v)] => encodeStr k ++ ':' :: ' ' :: encode v
  | (k, v) :: p :: tl =>
    encodeStr k ++ ':' :: ' ' :: encode v ++ ',' :: ' ' :: encodeFields (p :: tl)
end

/-- `json.dumps` of a payload, as `send_native_message` calls it. -/
def pyJsonDumps (payload : Json) : Str := encode payload

/-! ### The parser: `json.loads`

CPython's `py_scanstring` / `py_make_scanner` pair, restricted as noted at
the top of the file: number literals with a fraction or exponent (which
Python turns into floats) and the `NaN` / `Infinity` / `-Infinity`
specials are parsed to `none`, and a `\uXXXX` escape denoting a lone
surrogate is rejected because a Lean `Char` cannot represent it.  No
theorem feeds the parser such input. -/

mutual
/-- CPython's `py_scanstring` after the opening quote, in strict mode,
with the accumulated characters carried in reverse order (CPython appends
chunks to a list and joins them): a raw control character is rejected,
escapes are decoded (`pyScanEscape`), and a `\uXXXX\uYYYY` surrogate
pair becomes the combined astral character (`pyScanUnicode`,
`pyScanLowSurrogate`).  A `\uXXXX` escape that CPython would keep as a
lone surrogate code point is `none` here (not representable as a `Char`;
no theorem exercises it).  The `fuel` argument exists only for
termination: it falls by one per character consumed, so any
`fuel > input.length` behaves like CPython. -/
def pyScanString : Nat → Str → Str → Option (Str × Str)
  | 0, _, _ => none
  | _ + 1, _, [] => none
  | fuel + 1, acc, c :: rest =>
    if c = '"' then some (acc.reverse, rest)
    else if c = '\\' then pyScanEscape fuel acc rest
    else if c.toNat < 32 then none
    else pyScanString fuel (c :: acc) rest
/-- The character after a backslash: CPython's `BACKSLASH` table, plus
the `\u` handler. -/
def pyScanEscape : Nat → Str → Str → Option (Str × Str)
  | 0, _, _ => none
  | _ + 1, _, [] => none
  | fuel + 1, acc, e :: rest =>
    if e = '"' then pyScanString fuel ('"' :: acc) rest
    else if e = '\\' then pyScanString fuel ('\\' :: acc) rest
    else if e = '/' then pyScanString fuel ('/' :: acc) rest
    else if e = 'b' then pyScanString fuel ('\x08' :: acc) rest
    else if e = 'f' then pyScanString fuel ('\x0c' :: acc) rest
    else if e = 'n' then pyScanString fuel ('\n' :: acc) rest
    else if e = 'r' then pyScanString fuel ('\r' :: acc) rest
    else if e = 't' then pyScanString fuel ('\t' :: acc) rest
    else if e = 'u' then pyScanUnicode fuel acc rest
    else none
/-- The four hex digits after `\u` (CPython's `_decode_uXXXX`), and the
routing of a high surrogate to the paired-escape lookahead. -/
def pyScanUnicode : Nat → Str → Str → Option (Str × Str)
  | 0, _, _ => none
  | fuel + 1, acc, a :: b :: c :: d :: rest =>
    match hexVal a, hexVal b, hexVal c, hexVal d with
    | some ha, some hb, some hc, some hd =>
      let n := ((ha * 16 + hb) * 16 + hc) * 16 + hd
      if 55296 ≤ n ∧ n ≤ 56319 then pyScanLowSurrogate fuel n acc rest
      else if 56320 ≤ n ∧ n ≤ 57343 then none
      else pyScanString fuel (Char.ofNat n :: acc) rest
    | _, _, _, _ => none
  | _ + 1, _, _ => none
/-- After a high surrogate `\uXXXX` (value `n`), CPython looks for an
immediately following `\uYYYY` low surrogate and combines the pair. -/
def pyScanLowSurrogate : Nat → Nat → Str → Str → Option (Str × Str)
  | 0, _, _, _ => none
  | fuel + 1, n, acc, e :: u :: a :: b :: c :: d :: rest =>
    if e = '\\' ∧ u = 'u' then
      match hexVal a, hexVal b, hexVal c, hexVal d with
      | some ha, some hb, some hc, some hd =>
        let m := ((ha * 16 + hb) * 16 + hc) * 16 + hd
        if 56320 ≤ m ∧ m ≤ 57343 then
          pyScanString fuel
            (Char.ofNat (65536 + (n - 55296) * 1024 + (m - 56320)) :: acc) rest
        else none
      | _, _, _, _ => none
    else none
  | _ + 1, _, _, _ => none

end

/-- Split off the maximal run of decimal digits. -/
def digitSpan : Str → Str × Str
  | [] => ([], [])
  | c :: cs =>
    if isDig c then
      let p := digitSpan cs
      (c :: p.1, p.2)
    else ([], c :: cs)

/-- The integer part of a JSON number: `0`, or a nonzero digit followed by
further digits (CPython's regex `(?:0|[1-9]\d*)`: after a leading `0` no
more digits are consumed). -/
def parseUInt (cs : Str) : Option (Nat × Str) :=
  match cs with
  | [] => none
  | c :: rest =>
    if c = '0' then some (0, rest)
    else if isDig c then
      let p := digitSpan (c :: rest)
      some (decToNat p.1, p.2)
    else none

/-- Does `[+-]?\d` follow (the mandatory tail of an exponent)? -/
def expAhead (cs : Str) : Bool :=
  match cs with
  | [] => false
  | c :: rest =>
    if c = '+' ∨ c = '-' then
      match rest with
      | d :: _ => isDig d
      | [] => false
    else isDig c

/-- Would CPython's number regex continue past the integer part (a `.`
with a digit, or an exponent)?  Such a match is a Python float and is
outside this model. -/
def floatAhead (cs : Str) : Bool :=
  match cs with
  | [] => false
  | c :: rest =>
    if c = '.' then
      match rest with
      | d :: _ => isDig d
      | [] => false
    else if c = 'e' ∨ c = 'E' then expAhead rest
    else false

/-- A JSON number literal.  Integers are parsed exactly; a float match
(fraction or exponent) is outside the model and yields `none`, as does
`-Infinity` (whose head also reaches this function in CPython). -/
def parseNumber (cs : Str) : Option (Json × Str) :=
  match cs with
  | [] => none
  | c :: rest =>
    if c = '-' then
      match parseUInt rest with
      | some (n, r) => if floatAhead r then none else some (.num (-(n : Int)), r)
      | none => none
    else
      match parseUInt (c :: rest) with
      | some (n, r) => if floatAhead r then none else some (.num (n : Int), r)
      | none => none

/-- The tail of the `null` keyword (CPython probes `startswith("null")`
at the current position). -/
def parseKeywordNull (cs : Str) : Option (Json × Str) :=
  match cs with
  | c1 :: c2 :: c3 :: rest =>
    if c1 = 'u' ∧ c2 = 'l' ∧ c3 = 'l' then some (.null, rest) else none
  | _ => none

/-- The tail of the `true` keyword. -/
def parseKeywordTrue (cs : Str) : Option (Json × Str) :=
  match cs with
  | c1 :: c2 :: c3 :: rest =>
    if c1 = 'r' ∧ c2 = 'u' ∧ c3 = 'e' then some (.bool true, rest) else none
  | _ => none

/-- The tail of the `false` keyword. -/
def parseKeywordFalse (cs : Str) : Option (Json × Str) :=
  match cs with
  | c1 :: c2 :: c3 :: c4 :: rest =>
    if c1 = 'a' ∧ c2 = 'l' ∧ c3 = 's' ∧ c4 = 'e' then some (.bool false, rest) else none
  | _ => none

mutual
/-- One JSON value, dispatched on its first character exactly as
CPython's `py_make_scanner` does (string, array, object, the three
keywords, then a number; `NaN`/`Infinity` heads fall through to
`parseNumber` and give `none`, see above).  The `fuel` argument only
bounds nesting for termination; every call decrements it. -/
def parseValue : Nat → Str → Option (Json × Str)
  | 0, _ => none
  | _ + 1, [] => none
  | fuel + 1, c :: rest =>
    if c = '"' then (pyScanString fuel [] rest).map fun p => (Json.str p.1, p.2)
    else if c = '[' then
      match skipWs rest with
      | [] => none
      | c2 :: r2 =>
        if c2 = ']' then some (.arr [], r2)
        else (parseArrayItems fuel (c2 :: r2)).map fun p => (Json.arr p.1, p.2)
    else if c = '{' then
      match skipWs rest with
      | [] => none
      | c2 :: r2 =>
        if c2 = '}' then some (.obj [], r2)
        else (parseObjItems fuel (c2 :: r2)).map fun p => (Json.obj p.1, p.2)
    else if c = 'n' then parseKeywordNull rest
    else if c = 't' then parseKeywordTrue rest
    else if c = 'f' then parseKeywordFalse rest
    else parseNumber (c :: rest)
/-- The elements of a nonempty array body: value, then `,` (and more
elements) or `]`. -/
def parseArrayItems : Nat → Str → Option (List Json × Str)
  | 0, _ => none
  | fuel + 1, cs =>
    match parseValue fuel cs with
    | none => none
    | some (v, r) =>
      match skipWs r with
      | [] => none
      | c2 :: r2 =>
        if c2 = ',' then
          match parseArrayItems fuel (skipWs r2) with
          | none => none
          | some (vs, rr) => some (v :: vs, rr)
        else if c2 = ']' then some ([v], r2)
        else none
/-- The members of a nonempty object body: `"key"`, `:`, value, then `,`
(and more members) or `}`. -/
def parseObjItems : Nat → Str → Option (List (Str × Json) × Str)
  | 0, _ => none
  | _ + 1, [] => none
  | fuel + 1, c :: rest =>
    if c = '"' then
      match pyScanString fuel [] rest with
      | none => none
      | some (k, r1) =>
        match skipWs r1 with
        | [] => none
        | c2 :: r2 =>
          if c2 = ':' then
            match parseValue fuel (skipWs r2) with
            | none => none
            | some (v, r3) =>
              match skipWs r3 with
              | [] => none
              | c3 :: r4 =>
                if c3 = ',' then
                  match parseObjItems fuel (skipWs r4) with
                  | none => none
                  | some (fs, rr) => some ((k, v) :: fs, rr)
                else if c3 = '}' then some ([(k, v)], r4)
                else none
          else none
    else none
end

/-- `json.loads(text)`: skip leading whitespace, parse one value, and
require only whitespace after it.  The fuel `text.length + 1` dominates
the nesting depth, since every nesting level consumes at least one
character. -/
def pyJsonLoads (text : Str) : Option Json :=
  match parseValue (text.length + 1) (skipWs text) with
  | none => none
  | some (j, rest) => if skipWs rest = [] then some j else none

/-! ### UTF-8 bytes

`send_native_message` calls `.encode("utf-8")` on the dumped text, and
`read_native_message` calls `.decode("utf-8")` on the received payload
(raising `UnicodeDecodeError`, here `none`, on invalid byte sequences:
stray continuation bytes, overlong forms, surrogates, and values beyond
U+10FFFF are all rejected, as CPython's strict decoder rejects them). -/

/-- UTF-8 bytes of one character. -/
def utf8EncodeChar (c : Char) : List Nat :=
  let n := c.toNat
  if n < 0x80 then [n]
  else if n < 0x800 then [0xC0 + n / 64, 0x80 + n % 64]
  else if n < 0x10000 then [0xE0 + n / 4096, 0x80 + n / 64 % 64, 0x80 + n % 64]
  else [0xF0 + n / 0x40000, 0x80 + n / 4096 % 64, 0x80 + n / 64 % 64, 0x80 + n % 64]

/-- Python `text.encode("utf-8")`. -/
def utf8Encode (s : Str) : List Nat := s.flatMap utf8EncodeChar

/-- Is `b` a UTF-8 continuation byte `0x80..0xBF`? -/
def isCont (b : Nat) : Bool := 0x80 ≤ b && b ≤ 0xBF

mutual
/-- Python `bytes.decode("utf-8")` (strict): one character per iteration,
dispatched on the lead byte; the continuation bytes are checked by the
per-length helpers below. -/
def utf8Decode : List Nat → Option Str
  | [] => some []
  | b :: rest =>
    if b < 0x80 then (utf8Decode rest).map fun s => Char.ofNat b :: s
    else if b < 0xC2 then none
    else if b < 0xE0 then utf8DecodeTwo b rest
    else if b < 0xF0 then utf8DecodeThree b rest
    else if b < 0xF5 then utf8DecodeFour b rest
    else none
/-- A two-byte sequence `C2..DF 80..BF` (no overlong forms possible:
lead bytes `C0`/`C1` were already rejected). -/
def utf8DecodeTwo (b : Nat) : List Nat → Option Str
  | b1 :: r2 =>
    if isCont b1 then
      (utf8Decode r2).map fun s => Char.ofNat ((b - 0xC0) * 64 + (b1 - 0x80)) :: s
    else none
  | [] => none
/-- A three-byte sequence, rejecting overlong forms (`E0 80..9F`) and
surrogates (`ED A0..BF`) exactly as CPython's strict decoder does. -/
def utf8DecodeThree (b : Nat) : List Nat → Option Str
  | b1 :: b2 :: r2 =>
    if isCont b1 && isCont b2 &&
        !(b = 0xE0 && b1 < 0xA0) && !(b = 0xED && 0xA0 ≤ b1) then
      (utf8Decode r2).map fun s =>
        Char.ofNat ((b - 0xE0) * 4096 + (b1 - 0x80) * 64 + (b2 - 0x80)) :: s
    else none
  | _ => none
/-- A four-byte sequence, rejecting overlong forms (`F0 80..8F`) and
values beyond U+10FFFF (`F4 90..`). -/
def utf8DecodeFour (b : Nat) : List Nat → Option Str
  | b1 :: b2 :: b3 :: r2 =>
    if isCont b1 && isCont b2 && isCont b3 &&
        !(b = 0xF0 && b1 < 0x90) && !(b = 0xF4 && 0x90 ≤ b1) then
      (utf8Decode r2).map fun s =>
        Char.ofNat ((b - 0xF0) * 0x40000 + (b1 - 0x80) * 4096 +
          (b2 - 0x80) * 64 + (b3 - 0x80)) :: s
    else none
  | _ => none
end

/-! ### The framing channel -/

/-- `L.to_bytes(4, byteorder="little")`. -/
def leBytes4 (n : Nat) : List Nat :=
  [n % 256, n / 256 % 256, n / 65536 % 256, n / 16777216 % 256]

/-- `int.from_bytes(raw, byteorder="little")` on (up to) four bytes. -/
def fromLE : List Nat → Nat
  | [] => 0
  | b :: rest => b + 256 * fromLE rest

/-- `send_native_message(payload)`: the bytes the host writes to stdout —
the payload's UTF-8 length as a 4-byte little-endian header, then the
payload bytes, then a flush.  Python's `int.to_bytes(4, ...)` raises
`OverflowError` when the length needs more than 4 bytes, so a payload of
`2^32` bytes or more produces no bytes at all (`none`). -/
def send_native_message (payload : Json) : Option (List Nat) :=
  let encoded_payload := utf8Encode (pyJsonDumps payload)
  if encoded_payload.length < 4294967296 then
    some (leBytes4 encoded_payload.length ++ encoded_payload)
  else none

/-- Outcome of one `read_native_message` call: the Python `None` value
(`eos`), one decoded non-`None` message, or an unhandled exception
(`UnicodeDecodeError` / `json.JSONDecodeError`).  The source returns the
single value `None` both for the three short-read cases and for
`json.loads` of a well-framed `"null"` payload — the two are one and the
same object in Python, so the model gives them one and the same
constructor, and `msg` never carries `Json.null`. -/
inductive ReadResult where
  | eos
  | msg (j : Json)
  | fault

/-- `read_native_message()` acting on the modelled stdin byte stream.
Returns the outcome together with the bytes still unread (Python's
`read(k)` consumes `min k available` bytes).  A payload decoding to JSON
null yields `.eos`: `json.loads(b"null")` returns `None`, the very value
the three early returns produce. -/
def read_native_message (input : List Nat) : ReadResult × List Nat :=
  let raw_length := input.take 4
  if raw_length.length < 4 then (.eos, input.drop 4)
  else
    let message_length := fromLE raw_length
    if message_length = 0 then (.eos, input.drop 4)
    else
      let message_bytes := (input.drop 4).take message_length
      let rest := (input.drop 4).drop message_length
      if message_bytes.length < message_length then (.eos, rest)
      else
        match utf8Decode message_bytes with
        | none => (.fault, rest)
        | some text =>
          match pyJsonLoads text with
          | none => (.fault, rest)
          | some Json.null => (.eos, rest)
          | some j => (.msg j, rest)

/-! ### The request dispatcher -/

/-- The result triple of `subprocess.run(..., capture_output=True,
text=True)`: exit status plus captured textual stdout and stderr. -/
structure ProcResult where
  returncode : Int
  stdout : Str
  stderr : Str

/-- One recorded child-process launch: the argument list handed to
`subprocess.run` and the working directory (`cwd=`) it runs in.  Output
capture (`capture_output=True, text=True`) and the synchronous wait are
carried by `Env.run` returning a completed `ProcResult`. -/
structure Spawn where
  argv : List Str
  cwd : Str

/-- The platform and operating system, as the host script observes them:
`os.name == "nt"`, `os.path.exists`, and `subprocess.run` (a function of
the argument list and working directory, returning the completed
process). -/
structure Env where
  isNT : Bool
  pathExists : Str → Bool
  run : List Str → Str → ProcResult

/-- `os.path.join(directory, name)` for a relative `name`: append the
platform separator unless `directory` is empty or already ends in one. -/
def pyPathJoin (isNT : Bool) (directory name : Str) : Str :=
  let sep : Char := if isNT then '\\' else '/'
  match directory.getLast? with
  | none => name
  | some c => if c = sep then directory ++ name else directory ++ sep :: name

/-- `resolve_yt_dlp_path(script_directory)`: the executable named
`yt-dlp.exe` on Windows (`os.name == "nt"`) and `yt-dlp` elsewhere,
next to the host's own directory. -/
def resolve_yt_dlp_path (isNT : Bool) (script_directory : Str) : Str :=
  let executable_name : Str := if isNT then "yt-dlp.exe".data else "yt-dlp".data
  pyPathJoin isNT script_directory executable_name

/-- `build_yt_dlp_command(yt_dlp_path, page_url)`. -/
def build_yt_dlp_command (yt_dlp_path : Str) (page_url : Str) : List Str :=
  [yt_dlp_path, "--cookies-from-browser".data, "chrome".data, page_url]

/-- `handle_download_request(message, script_directory)`: the response
dictionary, paired with the trace of child processes launched on the way
(empty on the two early-error paths, exactly one entry otherwise). -/
def handle_download_request (message : List (Str × Json)) (script_directory : Str)
    (env : Env) : List (Str × Json) × List Spawn :=
  -- `if not isinstance(page_url, str) or not page_url.strip(): return error`
  match pyDictGet message "pageUrl".data with
  | some (.str page_url) =>
    if pyStrip page_url = [] then
      ([("status".data, .str "error".data),
        ("message".data, .str "Missing page URL for yt-dlp.".data)], [])
    else
      let yt_dlp_path := resolve_yt_dlp_path env.isNT script_directory
      if env.pathExists yt_dlp_path = false then
        ([("status".data, .str "error".data),
          ("message".data,
           .str ("yt-dlp was not found at ".data ++ yt_dlp_path ++ ['.']))], [])
      else
        let yt_dlp_command := build_yt_dlp_command yt_dlp_path page_url
        let completed_process := env.run yt_dlp_command script_directory
        let trace := [Spawn.mk yt_dlp_command script_directory]
        if completed_process.returncode ≠ 0 then
          let error_output :=
            if pyStrip completed_process.stderr ≠ [] then pyStrip completed_process.stderr
            else pyStrip completed_process.stdout
          ([("status".data, .str "error".data),
            ("message".data,
             .str (if error_output ≠ [] then error_output
                   else "yt-dlp failed with an unknown error.".data))], trace)
        else
          ([("status".data, .str "ok".data),
            ("message".data, .str "yt-dlp finished downloading the reel.".data)], trace)
  | _ =>
    ([("status".data, .str "error".data),
      ("message".data, .str "Missing page URL for yt-dlp.".data)], [])

/-- The dispatch step of the `run_native_host` loop body, for one decoded
message that is a dictionary: `action == "download"` routes to
`handle_download_request`, everything else (a different string, a
non-string, or a missing/`None` action) gets the fixed unknown-action
error response. -/
def dispatchMessage (fields : List (Str × Json)) (script_directory : Str)
    (env : Env) : List (Str × Json) × List Spawn :=
  match pyDictGet fields "action".data with
  | some (.str a) =>
    if a = "download".data then handle_download_request fields script_directory env
    else ([("status".data, .str "error".data),
           ("message".data, .str "Unknown action received.".data)], [])
  | _ => ([("status".data, .str "error".data),
           ("message".data, .str "Unknown action received.".data)], [])

/-- How a run of the host loop ends: `clean` when `read_native_message`
returns `None` (end-of-stream or a null payload) and the loop breaks,
`fault` when an unhandled exception escapes (malformed UTF-8/JSON inside
the read, or probing `.get` on a decoded payload that is not a
dictionary: a list, string, number or boolean). -/
inductive HostOutcome where
  | clean
  | fault

/-- The body of `run_native_host`, driven by fuel (each loop iteration
consumes at least five input bytes, so `input.length + 1` iterations
always suffice; the fuel-zero default is never reached from
`run_native_host`).  Returns the responses handed to
`send_native_message`, one per dispatched message and in order, plus the
outcome. -/
def hostLoop (env : Env) (script_directory : Str) :
    Nat → List Nat → List (List (Str × Json)) × HostOutcome
  | 0, _ => ([], .fault)
  | fuel + 1, input =>
    match read_native_message input with
    | (.eos, _) => ([], .clean)
    | (.fault, _) => ([], .fault)
    | (.msg j, rest) =>
      match j with
      | .obj fields =>
        let response := (dispatchMessage fields script_directory env).1
        let tail := hostLoop env script_directory fuel rest
        (response :: tail.1, tail.2)
      | .null =>
        -- unreachable: `read_native_message` never yields `.msg .null`
        -- (a null payload is the `None` sentinel, already `.eos` above);
        -- were the message `None`, `if incoming_message is None` breaks
        ([], .clean)
      | _ =>
        -- `incoming_message.get("action")` raises AttributeError:
        -- lists, strings, numbers and booleans have no `.get`
        ([], .fault)

/-- `run_native_host()`: loop `read_native_message` / dispatch /
`send_native_message` until stdin signals end-of-stream.  The script
directory (`os.path.dirname(os.path.abspath(__file__))`) and the
platform oracles are parameters of the model. -/
def run_native_host (input : List Nat) (env : Env) (script_directory : Str) :
    List (List (Str × Json)) × HostOutcome :=
  hostLoop env script_directory (input.length + 1) input

/-! ### Basic lemmas: whitespace skipping, digits, decimal literals -/

theorem dropLeading_cons_neg (p : Char → Bool) (c : Char) (cs : Str)
    (h : p c = false) : dropLeading p (c :: cs) = c :: cs := by
  simp [dropLeading, h]

theorem skipWs_cons_not {c : Char} (cs : Str) (h : isJsonWs c = false) :
    skipWs (c :: cs) = c :: cs :=
  dropLeading_cons_neg _ _ _ h

theorem skipWs_nil : skipWs [] = [] := rfl

theorem skipWs_space (cs : Str) : skipWs (' ' :: cs) = skipWs cs := by
  simp [skipWs, dropLeading, isJsonWs]

/-- A character cannot satisfy one decidable character class and miss it. -/
theorem ne_of_classes {p : Char → Bool} {c d : Char} (h : p c = true)
    (hd : p d = false) : c ≠ d := by
  intro e
  rw [e, hd] at h
  cases h

theorem digitChar_isDig : ∀ m, m < 10 → isDig (Nat.digitChar m) = true := by decide

theorem digitChar_toNat : ∀ m, m < 10 → (Nat.digitChar m).toNat = 48 + m := by decide

theorem digitChar_ne_zero : ∀ m, 1 ≤ m → m < 10 → Nat.digitChar m ≠ '0' := by decide

theorem isDig_not_ws {c : Char} (h : isDig c = true) : isJsonWs c = false := by
  cases hw : isJsonWs c
  · rfl
  · have h4 : ((c = ' ' ∨ c = '\t') ∨ c = '\n') ∨ c = '\r' := by
      simpa [isJsonWs] using hw
    rcases h4 with ((rfl | rfl) | rfl) | rfl <;> cases h

theorem natDecGo_digits :
    ∀ fuel n, n < fuel → ∀ c ∈ natDecGo fuel n, isDig c = true := by
  intro fuel
  induction fuel with
  | zero => intro n h; omega
  | succ f ih =>
    intro n h c hc
    by_cases h10 : n < 10
    · simp only [natDecGo, if_pos h10, List.mem_singleton] at hc
      exact hc ▸ digitChar_isDig n h10
    · simp only [natDecGo, if_neg h10, List.mem_append, List.mem_singleton] at hc
      rcases hc with hc | hc
      · have hlt : n / 10 < f := by
          have := Nat.div_lt_self (by omega : 0 < n) (by omega : 1 < 10)
          omega
        exact ih (n / 10) hlt c hc
      · exact hc ▸ digitChar_isDig (n % 10) (Nat.mod_lt n (by omega))

theorem natDecGo_head :
    ∀ fuel n, n < fuel → 1 ≤ n →
      ∃ c cs, natDecGo fuel n = c :: cs ∧ c ≠ '0' ∧ isDig c = true := by
  intro fuel
  induction fuel with
  | zero => intro n h; omega
  | succ f ih =>
    intro n h h1
    by_cases h10 : n < 10
    · refine ⟨Nat.digitChar n, [], ?_, digitChar_ne_zero n h1 h10, digitChar_isDig n h10⟩
      simp [natDecGo, if_pos h10]
    · have hlt : n / 10 < f := by
        have := Nat.div_lt_self (by omega : 0 < n) (by omega : 1 < 10)
        omega
      have hge : 1 ≤ n / 10 := Nat.le_div_iff_mul_le (by omega) |>.mpr (by omega)
      obtain ⟨c, cs, hc, hcz, hcd⟩ := ih (n / 10) hlt hge
      exact ⟨c, cs ++ [Nat.digitChar (n % 10)], by simp [natDecGo, if_neg h10, hc], hcz, hcd⟩

theorem natDec_ne_nil (n : Nat) : natDec n ≠ [] := by
  unfold natDec
  by_cases h10 : n < 10
  · simp [natDecGo, if_pos h10]
  · simp [natDecGo, if_neg h10]

theorem foldl_natDecGo :
    ∀ fuel n acc, n < fuel →
      List.foldl (fun a c => 10 * a + (c.toNat - 48)) acc (natDecGo fuel n) =
        acc * 10 ^ (natDecGo fuel n).length + n := by
  intro fuel
  induction fuel with
  | zero => intro n acc h; omega
  | succ f ih =>
    intro n acc h
    by_cases h10 : n < 10
    · simp only [natDecGo, if_pos h10, List.foldl_cons, List.foldl_nil,
        List.length_singleton, pow_one]
      rw [digitChar_toNat n h10]
      omega
    · have hlt : n / 10 < f := by
        have := Nat.div_lt_self (by omega : 0 < n) (by omega : 1 < 10)
        omega
      simp only [natDecGo, if_neg h10, List.foldl_append, List.foldl_cons,
        List.foldl_nil, List.length_append, List.length_singleton]
      rw [ih (n / 10) acc hlt, digitChar_toNat (n % 10) (Nat.mod_lt n (by omega))]
      have hmod : 48 + n % 10 - 48 = n % 10 := by omega
      rw [hmod, pow_succ]
      have hdm : 10 * (n / 10) + n % 10 = n := Nat.div_add_mod n 10
      ring_nf
      omega

theorem decToNat_natDec (n : Nat) : decToNat (natDec n) = n := by
  unfold decToNat natDec
  rw [foldl_natDecGo (n + 1) n 0 (Nat.lt_succ_self n)]
  simp

theorem natDec_digits (n : Nat) : ∀ c ∈ natDec n, isDig c = true :=
  natDecGo_digits (n + 1) n (Nat.lt_succ_self n)

/-! ### Number literal round trip -/

/-- The characters that may legally follow a value inside encoder output:
nothing (top level), or a separator/closer.  None of them can extend a
number, a keyword, or a string, so parsing stops exactly at the value's
end. -/
def restOk (cs : Str) : Prop :=
  match cs with
  | [] => True
  | c :: _ => c = ',' ∨ c = ']' ∨ c = '}'

theorem restOk_nil : restOk [] := trivial

theorem restOk_comma (tl : Str) : restOk (',' :: tl) := Or.inl rfl

theorem restOk_rbracket (tl : Str) : restOk (']' :: tl) := Or.inr (Or.inl rfl)

theorem restOk_rbrace (tl : Str) : restOk ('}' :: tl) := Or.inr (Or.inr rfl)

/-- The head of the remainder is not a decimal digit. -/
def headNotDig (cs : Str) : Prop :=
  match cs with
  | [] => True
  | c :: _ => isDig c = false

theorem headNotDig_of_restOk {cs : Str} (h : restOk cs) : headNotDig cs := by
  cases cs with
  | nil => trivial
  | cons c tl =>
    rcases h with rfl | rfl | rfl <;> exact rfl

theorem digitSpan_append (ds rest : Str) (hds : ∀ c ∈ ds, isDig c = true)
    (hr : headNotDig rest) : digitSpan (ds ++ rest) = (ds, rest) := by
  induction ds with
  | nil =>
    cases rest with
    | nil => rfl
    | cons c tl =>
      have hc : isDig c = false := hr
      simp [digitSpan, hc]
  | cons c tl ih =>
    have hc : isDig c = true := hds c (by simp)
    simp [digitSpan, hc, ih fun d hd => hds d (by simp [hd])]

theorem parseUInt_natDec (n : Nat) (rest : Str) (hr : headNotDig rest) :
    parseUInt (natDec n ++ rest) = some (n, rest) := by
  by_cases h0 : n = 0
  · subst h0
    have h01 : natDec 0 = ['0'] := rfl
    rw [h01]
    simp [parseUInt]
  · obtain ⟨c, cs, hc, hcz, hcd⟩ := natDecGo_head (n + 1) n (Nat.lt_succ_self n) (by omega)
    have hc' : natDec n = c :: cs := hc
    rw [hc']
    simp only [List.cons_append, parseUInt]
    rw [if_neg (by exact fun e => hcz (by simpa [isDig] using e ▸ rfl)), if_pos hcd]
    have hspan : digitSpan ((c :: cs) ++ rest) = (c :: cs, rest) := by
      refine digitSpan_append _ _ ?_ hr
      intro d hd
      exact natDec_digits n d (hc' ▸ hd)
    simp only [List.cons_append] at hspan
    rw [hspan]
    have hdec : decToNat (c :: cs) = n := by
      rw [← hc']
      exact decToNat_natDec n
    simp [hdec]

theorem floatAhead_restOk {cs : Str} (h : restOk cs) : floatAhead cs = false := by
  cases cs with
  | nil => rfl
  | cons c tl => rcases h with rfl | rfl | rfl <;> simp [floatAhead]

theorem parseNumber_intDec (n : Int) (rest : Str) (hr : restOk rest) :
    parseNumber (intDec n ++ rest) = some (.num n, rest) := by
  have hnd := headNotDig_of_restOk hr
  have hfl := floatAhead_restOk hr
  by_cases hneg : n < 0
  · have habs : -(n.natAbs : Int) = n := by omega
    simp only [intDec, if_pos hneg, List.cons_append, parseNumber, if_pos rfl,
      parseUInt_natDec n.natAbs rest hnd, hfl]
    simp only [Bool.false_eq_true, if_false, habs]
    simp
  · have habs : (n.natAbs : Int) = n := by omega
    by_cases h0 : n.natAbs = 0
    · have hz : n = 0 := by omega
      subst hz
      have h01 : intDec 0 = ['0'] := rfl
      rw [h01]
      simp only [List.cons_append, List.nil_append, parseNumber]
      rw [if_neg (by decide : ¬ ('0' : Char) = '-')]
      have hpu : parseUInt ('0' :: rest) = some (0, rest) := by simp [parseUInt]
      simp only [hpu, hfl, Bool.false_eq_true, if_false]
      rfl
    · obtain ⟨c, cs, hc, hcz, hcd⟩ :=
        natDecGo_head (n.natAbs + 1) n.natAbs (Nat.lt_succ_self _) (by omega)
      have hc' : natDec n.natAbs = c :: cs := hc
      have hpu := parseUInt_natDec n.natAbs rest hnd
      rw [hc'] at hpu
      simp only [intDec, if_neg hneg, hc', List.cons_append, parseNumber]
      rw [if_neg (ne_of_classes hcd (by decide : isDig '-' = false))]
      simp only [List.cons_append] at hpu
      simp only [hpu, hfl, Bool.false_eq_true, if_false, habs]

/-! ### String literal round trip -/

theorem hexVal_hexChar : ∀ m, m < 16 → hexVal (hexChar m) = some m := by decide

theorem char_valid_ranges (c : Char) :
    c.toNat < 55296 ∨ (57343 < c.toNat ∧ c.toNat < 1114112) := by
  rcases c.valid with h | h
  · exact Or.inl h
  · exact Or.inr h

theorem scan_quote (fuel : Nat) (acc rest : Str) :
    pyScanString (fuel + 1) acc ('"' :: rest) = some (acc.reverse, rest) := by
  simp [pyScanString]

theorem scan_plain (fuel : Nat) (acc rest : Str) (c : Char) (h1 : ¬ c = '"')
    (h2 : ¬ c = '\\') (h3 : ¬ c.toNat < 32) :
    pyScanString (fuel + 1) acc (c :: rest) = pyScanString fuel (c :: acc) rest := by
  simp [pyScanString, h1, h2, h3]

theorem scan_esc_quote (fuel : Nat) (acc rest : Str) :
    pyScanString (fuel + 2) acc ('\\' :: '"' :: rest) =
      pyScanString fuel ('"' :: acc) rest := by
  simp [pyScanString, pyScanEscape]

theorem scan_esc_back (fuel : Nat) (acc rest : Str) :
    pyScanString (fuel + 2) acc ('\\' :: '\\' :: rest) =
      pyScanString fuel ('\\' :: acc) rest := by
  simp [pyScanString, pyScanEscape]

theorem scan_esc_b (fuel : Nat) (acc rest : Str) :
    pyScanString (fuel + 2) acc ('\\' :: 'b' :: rest) =
      pyScanString fuel ('\x08' :: acc) rest := by
  simp [pyScanString, pyScanEscape]

theorem scan_esc_t (fuel : Nat) (acc rest : Str) :
    pyScanString (fuel + 2) acc ('\\' :: 't' :: rest) =
      pyScanString fuel ('\t' :: acc) rest := by
  simp [pyScanString, pyScanEscape]

theorem scan_esc_n (fuel : Nat) (acc rest : Str) :
    pyScanString (fuel + 2) acc ('\\' :: 'n' :: rest) =
      pyScanString fuel ('\n' :: acc) rest := by
  simp [pyScanString, pyScanEscape]

theorem scan_esc_f (fuel : Nat) (acc rest : Str) :
    pyScanString (fuel + 2) acc ('\\' :: 'f' :: rest) =
      pyScanString fuel ('\x0c' :: acc) rest := by
  simp [pyScanString, pyScanEscape]

theorem scan_esc_r (fuel : Nat) (acc rest : Str) :
    pyScanString (fuel + 2) acc ('\\' :: 'r' :: rest) =
      pyScanString fuel ('\r' :: acc) rest := by
  simp [pyScanString, pyScanEscape]

theorem scan_esc_u (fuel : Nat) (acc rest : Str) (n : Nat) (hn : n < 65536)
    (hs : ¬(55296 ≤ n ∧ n ≤ 57343)) :
    pyScanString (fuel + 3) acc ('\\' :: 'u' :: (hex4 n ++ rest)) =
      pyScanString fuel (Char.ofNat n :: acc) rest := by
  have e1 : hexVal (hexChar (n / 4096 % 16)) = some (n / 4096 % 16) :=
    hexVal_hexChar _ (Nat.mod_lt _ (by omega))
  have e2 : hexVal (hexChar (n / 256 % 16)) = some (n / 256 % 16) :=
    hexVal_hexChar _ (Nat.mod_lt _ (by omega))
  have e3 : hexVal (hexChar (n / 16 % 16)) = some (n / 16 % 16) :=
    hexVal_hexChar _ (Nat.mod_lt _ (by omega))
  have e4 : hexVal (hexChar (n % 16)) = some (n % 16) :=
    hexVal_hexChar _ (Nat.mod_lt _ (by omega))
  have hcomb : ((n / 4096 % 16 * 16 + n / 256 % 16) * 16 + n / 16 % 16) * 16 + n % 16 = n := by
    omega
  simp only [hex4, List.cons_append, List.nil_append]
  simp only [pyScanString, pyScanEscape, pyScanUnicode, e1, e2, e3, e4, hcomb]
  simp [if_neg (by omega : ¬(55296 ≤ n ∧ n ≤ 56319)),
    if_neg (by omega : ¬(56320 ≤ n ∧ n ≤ 57343))]

theorem scan_esc_u2 (fuel : Nat) (acc rest : Str) (hi lo : Nat)
    (hhi : 55296 ≤ hi ∧ hi ≤ 56319) (hlo : 56320 ≤ lo ∧ lo ≤ 57343) :
    pyScanString (fuel + 4) acc
      ('\\' :: 'u' :: (hex4 hi ++ ('\\' :: 'u' :: (hex4 lo ++ rest)))) =
      pyScanString fuel
        (Char.ofNat (65536 + (hi - 55296) * 1024 + (lo - 56320)) :: acc) rest := by
  have e1 : hexVal (hexChar (hi / 4096 % 16)) = some (hi / 4096 % 16) :=
    hexVal_hexChar _ (Nat.mod_lt _ (by omega))
  have e2 : hexVal (hexChar (hi / 256 % 16)) = some (hi / 256 % 16) :=
    hexVal_hexChar _ (Nat.mod_lt _ (by omega))
  have e3 : hexVal (hexChar (hi / 16 % 16)) = some (hi / 16 % 16) :=
    hexVal_hexChar _ (Nat.mod_lt _ (by omega))
  have e4 : hexVal (hexChar (hi % 16)) = some (hi % 16) :=
    hexVal_hexChar _ (Nat.mod_lt _ (by omega))
  have f1 : hexVal (hexChar (lo / 4096 % 16)) = some (lo / 4096 % 16) :=
    hexVal_hexChar _ (Nat.mod_lt _ (by omega))
  have f2 : hexVal (hexChar (lo / 256 % 16)) = some (lo / 256 % 16) :=
    hexVal_hexChar _ (Nat.mod_lt _ (by omega))
  have f3 : hexVal (hexChar (lo / 16 % 16)) = some (lo / 16 % 16) :=
    hexVal_hexChar _ (Nat.mod_lt _ (by omega))
  have f4 : hexVal (hexChar (lo % 16)) = some (lo % 16) :=
    hexVal_hexChar _ (Nat.mod_lt _ (by omega))
  have hcombh : ((hi / 4096 % 16 * 16 + hi / 256 % 16) * 16 + hi / 16 % 16) * 16 + hi % 16 = hi := by
    omega
  have hcombl : ((lo / 4096 % 16 * 16 + lo / 256 % 16) * 16 + lo / 16 % 16) * 16 + lo % 16 = lo := by
    omega
  simp only [hex4, List.cons_append, List.nil_append]
  simp only [pyScanString, pyScanEscape, pyScanUnicode, pyScanLowSurrogate,
    e1, e2, e3, e4, f1, f2, f3, f4, hcombh, hcombl]
  simp [if_pos hhi, if_pos (by exact ⟨rfl, rfl⟩ : ('\\' : Char) = '\\' ∧ ('u' : Char) = 'u'),
    if_pos hlo]

/-- Peel a known amount of fuel off a positive budget. -/
theorem exists_add_of_le (m : Nat) {fuel : Nat} (h : m ≤ fuel) : ∃ f, fuel = f + m :=
  ⟨fuel - m, by omega⟩

/-- Scanning the escaped body written by the encoder recovers the
original characters: the escape map and the scanner's escape decoding are
mutually inverse, one character at a time. -/
theorem scan_escBody :
    ∀ (s : Str) (fuel : Nat) (acc rest : Str), (escBody s).length < fuel →
      pyScanString fuel acc (escBody s ++ '"' :: rest) = some (acc.reverse ++ s, rest) := by
  intro s
  induction s with
  | nil =>
    intro fuel acc rest hf
    obtain ⟨f, rfl⟩ := exists_add_of_le 1 (show 1 ≤ fuel by simp [escBody] at hf; omega)
    simp [escBody, scan_quote]
  | cons c tl ih =>
    intro fuel acc rest hf
    have hsplit : escBody (c :: tl) = escapeChar c ++ escBody tl := by simp [escBody]
    rw [hsplit] at hf ⊢
    rw [List.append_assoc]
    rw [List.length_append] at hf
    by_cases h1 : c = '"'
    · subst h1
      have he : escapeChar '"' = ['\\', '"'] := rfl
      rw [he] at hf ⊢
      obtain ⟨f, rfl⟩ := exists_add_of_le 2 (show 2 ≤ fuel by simp at hf; omega)
      simp only [List.cons_append, List.nil_append]
      rw [scan_esc_quote, ih f _ rest (by simp at hf; omega)]
      simp
    · by_cases h2 : c = '\\'
      · subst h2
        have he : escapeChar '\\' = ['\\', '\\'] := rfl
        rw [he] at hf ⊢
        obtain ⟨f, rfl⟩ := exists_add_of_le 2 (show 2 ≤ fuel by simp at hf; omega)
        simp only [List.cons_append, List.nil_append]
        rw [scan_esc_back, ih f _ rest (by simp at hf; omega)]
        simp
      · by_cases h3 : c = '\x08'
        · subst h3
          have he : escapeChar '\x08' = ['\\', 'b'] := rfl
          rw [he] at hf ⊢
          obtain ⟨f, rfl⟩ := exists_add_of_le 2 (show 2 ≤ fuel by simp at hf; omega)
          simp only [List.cons_append, List.nil_append]
          rw [scan_esc_b, ih f _ rest (by simp at hf; omega)]
          simp
        · by_cases h4 : c = '\t'
          · subst h4
            have he : escapeChar '\t' = ['\\', 't'] := rfl
            rw [he] at hf ⊢
            obtain ⟨f, rfl⟩ := exists_add_of_le 2 (show 2 ≤ fuel by simp at hf; omega)
            simp only [List.cons_append, List.nil_append]
            rw [scan_esc_t, ih f _ rest (by simp at hf; omega)]
            simp
          · by_cases h5 : c = '\n'
            · subst h5
              have he : escapeChar '\n' = ['\\', 'n'] := rfl
              rw [he] at hf ⊢
              obtain ⟨f, rfl⟩ := exists_add_of_le 2 (show 2 ≤ fuel by simp at hf; omega)
              simp only [List.cons_append, List.nil_append]
              rw [scan_esc_n, ih f _ rest (by simp at hf; omega)]
              simp
            · by_cases h6 : c = '\x0c'
              · subst h6
                have he : escapeChar '\x0c' = ['\\', 'f'] := rfl
                rw [he] at hf ⊢
                obtain ⟨f, rfl⟩ := exists_add_of_le 2 (show 2 ≤ fuel by simp at hf; omega)
                simp only [List.cons_append, List.nil_append]
                rw [scan_esc_f, ih f _ rest (by simp at hf; omega)]
                simp
              · by_cases h7 : c = '\r'
                · subst h7
                  have he : escapeChar '\r' = ['\\', 'r'] := rfl
                  rw [he] at hf ⊢
                  obtain ⟨f, rfl⟩ := exists_add_of_le 2 (show 2 ≤ fuel by simp at hf; omega)
                  simp only [List.cons_append, List.nil_append]
                  rw [scan_esc_r, ih f _ rest (by simp at hf; omega)]
                  simp
                · by_cases h8 : 32 ≤ c.toNat ∧ c.toNat ≤ 126
                  · have hcond : (32 ≤ c.toNat && c.toNat ≤ 126) = true := by
                      simp only [Bool.and_eq_true, decide_eq_true_eq]
                      exact h8
                    have he : escapeChar c = [c] := by
                      simp [escapeChar, h1, h2, h3, h4, h5, h6, h7, hcond]
                    rw [he] at hf ⊢
                    obtain ⟨f, rfl⟩ := exists_add_of_le 1 (show 1 ≤ fuel by simp at hf; omega)
                    simp only [List.cons_append, List.nil_append]
                    rw [scan_plain f _ _ c h1 h2 (by omega), ih f _ rest (by simp at hf; omega)]
                    simp
                  · have hcond : ¬((32 ≤ c.toNat && c.toNat ≤ 126) = true) := by
                      simp only [Bool.and_eq_true, decide_eq_true_eq]
                      exact h8
                    by_cases h9 : c.toNat < 65536
                    · have he : escapeChar c = '\\' :: 'u' :: hex4 c.toNat := by
                        simp [escapeChar, h1, h2, h3, h4, h5, h6, h7, hcond, h9]
                      rw [he] at hf ⊢
                      obtain ⟨f, rfl⟩ := exists_add_of_le 3 (show 3 ≤ fuel by simp at hf; omega)
                      have hsur : ¬(55296 ≤ c.toNat ∧ c.toNat ≤ 57343) := by
                        rcases char_valid_ranges c with hv | hv <;> omega
                      simp only [List.cons_append, List.append_assoc]
                      rw [scan_esc_u f _ _ c.toNat h9 hsur, Char.ofNat_toNat,
                        ih f _ rest (by simp [hex4] at hf; omega)]
                      simp
                    · have he : escapeChar c =
                          '\\' :: 'u' :: hex4 (55296 + (c.toNat - 65536) / 1024) ++
                          '\\' :: 'u' :: hex4 (56320 + (c.toNat - 65536) % 1024) := by
                        simp [escapeChar, h1, h2, h3, h4, h5, h6, h7, hcond, h9]
                      rw [he] at hf ⊢
                      obtain ⟨f, rfl⟩ := exists_add_of_le 4 (show 4 ≤ fuel by simp at hf; omega)
                      have hlt : c.toNat < 1114112 := by
                        rcases char_valid_ranges c with hv | hv <;> omega
                      have hhi : 55296 ≤ 55296 + (c.toNat - 65536) / 1024 ∧
                          55296 + (c.toNat - 65536) / 1024 ≤ 56319 := by omega
                      have hlo : 56320 ≤ 56320 + (c.toNat - 65536) % 1024 ∧
                          56320 + (c.toNat - 65536) % 1024 ≤ 57343 := by omega
                      simp only [List.cons_append, List.append_assoc]
                      rw [scan_esc_u2 f _ _ _ _ hhi hlo]
                      have hval : 65536 + (55296 + (c.toNat - 65536) / 1024 - 55296) * 1024 +
                          (56320 + (c.toNat - 65536) % 1024 - 56320) = c.toNat := by omega
                      rw [hval, Char.ofNat_toNat, ih f _ rest (by simp [hex4] at hf; omega)]
                      simp

theorem scan_encodeStr (s : Str) (fuel : Nat) (rest : Str)
    (h : (escBody s).length < fuel) :
    pyScanString fuel [] (escBody s ++ '"' :: rest) = some (s, rest) := by
  rw [scan_escBody s fuel [] rest h]
  simp

/-! ### Value round trip -/

theorem isDig_ne_of_false {c d : Char} (h : isDig c = true) (hd : isDig d = false) :
    c ≠ d := ne_of_classes h hd

/-- The first character of any encoded value: never whitespace, never a
closing bracket, so the scanner's dispatch and the separator tests in
array/object bodies see exactly the value's own text. -/
theorem encode_head (j : Json) :
    ∃ c cs, encode j = c :: cs ∧ isJsonWs c = false ∧ c ≠ ']' := by
  cases j with
  | null => exact ⟨'n', _, rfl, rfl, by decide⟩
  | bool b =>
    cases b
    · exact ⟨'f', _, rfl, rfl, by decide⟩
    · exact ⟨'t', _, rfl, rfl, by decide⟩
  | num n =>
    by_cases hneg : n < 0
    · refine ⟨'-', natDec n.natAbs, ?_, by decide, by decide⟩
      simp [encode, intDec, hneg]
    · cases hnd : natDec n.natAbs with
      | nil => exact absurd hnd (natDec_ne_nil _)
      | cons c cs =>
        have hc : isDig c = true := natDec_digits n.natAbs c (hnd ▸ by simp)
        refine ⟨c, cs, ?_, isDig_not_ws hc, isDig_ne_of_false hc (by decide)⟩
        simp [encode, intDec, hneg, hnd]
  | str s => exact ⟨'"', escBody s ++ ['"'], by simp [encode, encodeStr], rfl, by decide⟩
  | arr xs => exact ⟨'[', _, rfl, rfl, by decide⟩
  | obj fs => exact ⟨'{', _, rfl, rfl, by decide⟩

/-- Appended encoder output survives the whitespace skipping untouched. -/
theorem skipWs_encode_append (j : Json) (r : Str) :
    skipWs (encode j ++ r) = encode j ++ r := by
  obtain ⟨c, cs, hc, hws, _⟩ := encode_head j
  rw [hc, List.cons_append]
  exact skipWs_cons_not _ hws

/-- Head shape of a nonempty encoded element list. -/
theorem encodeItems_head (x : Json) (xs : List Json) :
    ∃ c cs, encodeItems (x :: xs) = c :: cs ∧ isJsonWs c = false ∧ c ≠ ']' := by
  obtain ⟨c, cs, hc, hws, hne⟩ := encode_head x
  cases xs with
  | nil => exact ⟨c, cs, by simp [encodeItems, hc], hws, hne⟩
  | cons y tl =>
    refine ⟨c, cs ++ ',' :: ' ' :: encodeItems (y :: tl), ?_, hws, hne⟩
    simp [encodeItems, hc]

theorem parseValue_number (fuel : Nat) (c : Char) (cs : Str)
    (h : isDig c = true ∨ c = '-') :
    parseValue (fuel + 1) (c :: cs) = parseNumber (c :: cs) := by
  have h1 : ¬ c = '"' := by
    rcases h with h | rfl
    · exact isDig_ne_of_false h (by decide)
    · decide
  have h2 : ¬ c = '[' := by
    rcases h with h | rfl
    · exact isDig_ne_of_false h (by decide)
    · decide
  have h3 : ¬ c = '{' := by
    rcases h with h | rfl
    · exact isDig_ne_of_false h (by decide)
    · decide
  have h4 : ¬ c = 'n' := by
    rcases h with h | rfl
    · exact isDig_ne_of_false h (by decide)
    · decide
  have h5 : ¬ c = 't' := by
    rcases h with h | rfl
    · exact isDig_ne_of_false h (by decide)
    · decide
  have h6 : ¬ c = 'f' := by
    rcases h with h | rfl
    · exact isDig_ne_of_false h (by decide)
    · decide
  simp only [parseValue]
  rw [if_neg h1, if_neg h2, if_neg h3, if_neg h4, if_neg h5, if_neg h6]

theorem intDec_head (n : Int) :
    ∃ c cs, intDec n = c :: cs ∧ (isDig c = true ∨ c = '-') := by
  by_cases hneg : n < 0
  · exact ⟨'-', natDec n.natAbs, by simp [intDec, hneg], Or.inr rfl⟩
  · cases hnd : natDec n.natAbs with
    | nil => exact absurd hnd (natDec_ne_nil _)
    | cons c cs =>
      have hc : isDig c = true := natDec_digits n.natAbs c (hnd ▸ by simp)
      exact ⟨c, cs, by simp [intDec, hneg, hnd], Or.inl hc⟩

/-- Parsing an encoded number at the head of the stream. -/
theorem parseValue_intDec (n : Int) (fuel : Nat) (rest : Str) (hr : restOk rest) :
    parseValue (fuel + 1) (intDec n ++ rest) = some (.num n, rest) := by
  obtain ⟨c, cs, hc, hcls⟩ := intDec_head n
  rw [hc, List.cons_append, parseValue_number fuel c (cs ++ rest) hcls,
    ← List.cons_append, ← hc]
  exact parseNumber_intDec n rest hr

theorem encodeFields_cons_shape (k : Str) (v : Json) (fs : List (Str × Json)) :
    ∃ t, encodeFields ((k, v) :: fs) = '"' :: t := by
  cases fs with
  | nil =>
    exact ⟨escBody k ++ '"' :: ':' :: ' ' :: encode v, by simp [encodeFields, encodeStr]⟩
  | cons p tl =>
    exact ⟨escBody k ++ '"' :: ':' :: ' ' :: (encode v ++ ',' :: ' ' :: encodeFields (p :: tl)),
      by simp [encodeFields, encodeStr]⟩

mutual
/-- Parsing encoder output recovers the value: the heart of the framing
round trip, by simultaneous induction with the array-element and
object-member forms. -/
theorem rt_val : ∀ (j : Json) (fuel : Nat) (rest : Str),
    (encode j).length < fuel → restOk rest →
    parseValue fuel (encode j ++ rest) = some (j, rest)
  | .null, fuel, rest, hf, _ => by
    obtain ⟨f, rfl⟩ := exists_add_of_le 1 (show 1 ≤ fuel by omega)
    rw [show encode Json.null ++ rest = 'n' :: 'u' :: 'l' :: 'l' :: rest from rfl]
    simp [parseValue, parseKeywordNull]
  | .bool true, fuel, rest, hf, _ => by
    obtain ⟨f, rfl⟩ := exists_add_of_le 1 (show 1 ≤ fuel by omega)
    rw [show encode (Json.bool true) ++ rest = 't' :: 'r' :: 'u' :: 'e' :: rest from rfl]
    simp [parseValue, parseKeywordTrue]
  | .bool false, fuel, rest, hf, _ => by
    obtain ⟨f, rfl⟩ := exists_add_of_le 1 (show 1 ≤ fuel by omega)
    rw [show encode (Json.bool false) ++ rest
        = 'f' :: 'a' :: 'l' :: 's' :: 'e' :: rest from rfl]
    simp [parseValue, parseKeywordFalse]
  | .num n, fuel, rest, hf, hr => by
    obtain ⟨f, rfl⟩ := exists_add_of_le 1 (show 1 ≤ fuel by omega)
    exact parseValue_intDec n f rest hr
  | .str s, fuel, rest, hf, _ => by
    obtain ⟨f, rfl⟩ := exists_add_of_le 1 (show 1 ≤ fuel by omega)
    have hsh : encode (.str s) ++ rest = '"' :: (escBody s ++ '"' :: rest) := by
      simp [encode, encodeStr]
    rw [hsh]
    have hlen : (escBody s).length < f := by
      simp [encode, encodeStr] at hf
      omega
    simp [parseValue, scan_encodeStr s f rest hlen]
  | .arr [], fuel, rest, hf, _ => by
    obtain ⟨f, rfl⟩ := exists_add_of_le 1 (show 1 ≤ fuel by omega)
    have hsh : encode (.arr []) ++ rest = '[' :: ']' :: rest := by
      simp [encode, encodeItems]
    rw [hsh]
    simp [parseValue, skipWs, dropLeading, isJsonWs]
  | .arr (x :: xs), fuel, rest, hf, _ => by
    obtain ⟨f, rfl⟩ := exists_add_of_le 1 (show 1 ≤ fuel by omega)
    have hsh : encode (.arr (x :: xs)) ++ rest
        = '[' :: (encodeItems (x :: xs) ++ ']' :: rest) := by
      simp [encode]
    rw [hsh]
    obtain ⟨c, cs, hc, hws, hne⟩ := encodeItems_head x xs
    have hskip : skipWs (encodeItems (x :: xs) ++ ']' :: rest)
        = encodeItems (x :: xs) ++ ']' :: rest := by
      rw [hc, List.cons_append]
      exact skipWs_cons_not _ hws
    have hlen : (encodeItems (x :: xs)).length + 1 < f := by
      simp [encode] at hf
      omega
    have harr := rt_items x xs f rest hlen
    have hstep : parseValue (f + 1) ('[' :: (encodeItems (x :: xs) ++ ']' :: rest)) =
        (match skipWs (encodeItems (x :: xs) ++ ']' :: rest) with
        | [] => none
        | c2 :: r2 =>
          if c2 = ']' then some (.arr [], r2)
          else (parseArrayItems f (c2 :: r2)).map fun p => (Json.arr p.1, p.2)) := by
      simp [parseValue]
    rw [hstep, hskip, hc, List.cons_append]
    simp only [if_neg hne]
    rw [← List.cons_append, ← hc, harr]
    rfl
  | .obj [], fuel, rest, hf, _ => by
    obtain ⟨f, rfl⟩ := exists_add_of_le 1 (show 1 ≤ fuel by omega)
    have hsh : encode (.obj []) ++ rest = '{' :: '}' :: rest := by
      simp [encode, encodeFields]
    rw [hsh]
    simp [parseValue, skipWs, dropLeading, isJsonWs]
  | .obj ((k, v) :: fs), fuel, rest, hf, _ => by
    obtain ⟨f, rfl⟩ := exists_add_of_le 1 (show 1 ≤ fuel by omega)
    have hsh : encode (.obj ((k, v) :: fs)) ++ rest
        = '{' :: (encodeFields ((k, v) :: fs) ++ '}' :: rest) := by
      simp [encode]
    rw [hsh]
    obtain ⟨t, ht⟩ := encodeFields_cons_shape k v fs
    have hskip : skipWs (encodeFields ((k, v) :: fs) ++ '}' :: rest)
        = encodeFields ((k, v) :: fs) ++ '}' :: rest := by
      rw [ht, List.cons_append]
      exact skipWs_cons_not _ (by decide)
    have hlen : (encodeFields ((k, v) :: fs)).length + 1 < f := by
      simp [encode] at hf
      omega
    have hobj := rt_fields k v fs f rest hlen
    have hstep : parseValue (f + 1) ('{' :: (encodeFields ((k, v) :: fs) ++ '}' :: rest)) =
        (match skipWs (encodeFields ((k, v) :: fs) ++ '}' :: rest) with
        | [] => none
        | c2 :: r2 =>
          if c2 = '}' then some (.obj [], r2)
          else (parseObjItems f (c2 :: r2)).map fun p => (Json.obj p.1, p.2)) := by
      simp [parseValue]
    rw [hstep, hskip, ht, List.cons_append]
    simp only [if_neg (by decide : ¬ ('"' : Char) = '}')]
    rw [← List.cons_append, ← ht, hobj]
    rfl
termination_by j _ _ _ _ => sizeOf j
/-- Array-element lists: parsing the encoded elements up to the closing
bracket recovers them in order. -/
theorem rt_items : ∀ (x : Json) (xs : List Json) (fuel : Nat) (rest : Str),
    (encodeItems (x :: xs)).length + 1 < fuel →
    parseArrayItems fuel (encodeItems (x :: xs) ++ ']' :: rest) = some (x :: xs, rest)
  | x, [], fuel, rest, hf => by
    obtain ⟨f, rfl⟩ := exists_add_of_le 1 (show 1 ≤ fuel by omega)
    have hsh : encodeItems [x] ++ ']' :: rest = encode x ++ ']' :: rest := by
      simp [encodeItems]
    rw [hsh]
    have hv := rt_val x f (']' :: rest)
      (by simp [encodeItems] at hf; omega) (restOk_rbracket rest)
    simp [parseArrayItems, hv, skipWs, dropLeading, isJsonWs]
  | x, y :: tl, fuel, rest, hf => by
    obtain ⟨f, rfl⟩ := exists_add_of_le 1 (show 1 ≤ fuel by omega)
    have hsh : encodeItems (x :: y :: tl) ++ ']' :: rest
        = encode x ++ (',' :: ' ' :: (encodeItems (y :: tl) ++ ']' :: rest)) := by
      simp [encodeItems]
    rw [hsh]
    have hlen1 : (encode x).length < f := by
      simp [encodeItems] at hf
      omega
    have hv := rt_val x f (',' :: ' ' :: (encodeItems (y :: tl) ++ ']' :: rest))
      hlen1 (restOk_comma _)
    have hlen2 : (encodeItems (y :: tl)).length + 1 < f := by
      simp [encodeItems] at hf
      omega
    have hrec := rt_items y tl f rest hlen2
    obtain ⟨c, cs, hc, hws, _⟩ := encodeItems_head y tl
    have hskip2 : skipWs (' ' :: (encodeItems (y :: tl) ++ ']' :: rest))
        = encodeItems (y :: tl) ++ ']' :: rest := by
      rw [skipWs_space, hc, List.cons_append]
      exact skipWs_cons_not _ hws
    have hcm : skipWs (',' :: ' ' :: (encodeItems (y :: tl) ++ ']' :: rest))
        = ',' :: ' ' :: (encodeItems (y :: tl) ++ ']' :: rest) :=
      skipWs_cons_not _ (by decide)
    simp [parseArrayItems, hv, hcm, hskip2, hrec]
termination_by x xs _ _ _ => sizeOf x + sizeOf xs
/-- Object-member lists: parsing the encoded members up to the closing
brace recovers them in order, keys included. -/
theorem rt_fields : ∀ (k : Str) (v : Json) (fs : List (Str × Json)) (fuel : Nat) (rest : Str),
    (encodeFields ((k, v) :: fs)).length + 1 < fuel →
    parseObjItems fuel (encodeFields ((k, v) :: fs) ++ '}' :: rest) = some ((k, v) :: fs, rest)
  | k, v, [], fuel, rest, hf => by
    obtain ⟨f, rfl⟩ := exists_add_of_le 1 (show 1 ≤ fuel by omega)
    have hsh : encodeFields [(k, v)] ++ '}' :: rest
        = '"' :: (escBody k ++ '"' :: (':' :: (' ' :: (encode v ++ '}' :: rest)))) := by
      simp [encodeFields, encodeStr]
    rw [hsh]
    have hscan := scan_encodeStr k f (':' :: (' ' :: (encode v ++ '}' :: rest)))
      (by simp [encodeFields, encodeStr] at hf; omega)
    have hvlen : (encode v).length < f := by
      simp [encodeFields, encodeStr] at hf
      omega
    have hv := rt_val v f ('}' :: rest) hvlen (restOk_rbrace rest)
    have hdl := skipWs_encode_append v ('}' :: rest)
    simp only [skipWs] at hdl
    simp [parseObjItems, hscan, hv, hdl, skipWs, dropLeading, isJsonWs]
  | k, v, (k2, v2) :: tl, fuel, rest, hf => by
    obtain ⟨f, rfl⟩ := exists_add_of_le 1 (show 1 ≤ fuel by omega)
    have hsh : encodeFields ((k, v) :: (k2, v2) :: tl) ++ '}' :: rest
        = '"' :: (escBody k ++ '"' ::
            (':' :: (' ' :: (encode v ++
              (',' :: ' ' :: (encodeFields ((k2, v2) :: tl) ++ '}' :: rest)))))) := by
      simp [encodeFields, encodeStr]
    rw [hsh]
    have hscan := scan_encodeStr k f
      (':' :: (' ' :: (encode v ++ (',' :: ' ' :: (encodeFields ((k2, v2) :: tl) ++ '}' :: rest)))))
      (by simp [encodeFields, encodeStr] at hf; omega)
    have hvlen : (encode v).length < f := by
      simp [encodeFields, encodeStr] at hf
      omega
    have hv := rt_val v f (',' :: ' ' :: (encodeFields ((k2, v2) :: tl) ++ '}' :: rest))
      hvlen (restOk_comma _)
    have hdl := skipWs_encode_append v
      (',' :: ' ' :: (encodeFields ((k2, v2) :: tl) ++ '}' :: rest))
    simp only [skipWs] at hdl
    have hlen2 : (encodeFields ((k2, v2) :: tl)).length + 1 < f := by
      simp [encodeFields, encodeStr] at hf
      omega
    have hrec := rt_fields k2 v2 tl f rest hlen2
    obtain ⟨t, ht⟩ := encodeFields_cons_shape k2 v2 tl
    have hdl2 : dropLeading isJsonWs (encodeFields ((k2, v2) :: tl) ++ '}' :: rest)
        = encodeFields ((k2, v2) :: tl) ++ '}' :: rest := by
      have h0 : skipWs (encodeFields ((k2, v2) :: tl) ++ '}' :: rest)
          = encodeFields ((k2, v2) :: tl) ++ '}' :: rest := by
        rw [ht, List.cons_append]
        exact skipWs_cons_not _ (by decide)
      simpa only [skipWs] using h0
    simp [parseObjItems, hscan, hv, hdl, hdl2, hrec, skipWs, dropLeading, isJsonWs]
termination_by k v fs _ _ _ => sizeOf v + sizeOf fs
end

/-- `json.loads(json.dumps(v)) == v`. -/
theorem pyJsonLoads_encode (j : Json) : pyJsonLoads (encode j) = some j := by
  obtain ⟨c, cs, hc, hws, _⟩ := encode_head j
  have hskip : skipWs (encode j) = encode j := by
    rw [hc]
    exact skipWs_cons_not _ hws
  have hv := rt_val j ((encode j).length + 1) [] (Nat.lt_succ_self _) restOk_nil
  rw [List.append_nil] at hv
  simp [pyJsonLoads, hskip, hv, skipWs_nil]

/-! ### Everything the encoder emits is ASCII -/

theorem hexChar_ascii : ∀ m, m < 16 → (hexChar m).toNat < 128 := by decide

theorem isDig_toNat {c : Char} (h : isDig c = true) : c.toNat < 128 := by
  simp only [isDig, Bool.and_eq_true, decide_eq_true_eq] at h
  omega

theorem mem_hex4_ascii {d : Char} {n : Nat} (hd : d ∈ hex4 n) : d.toNat < 128 := by
  simp only [hex4, List.mem_cons, List.not_mem_nil, or_false] at hd
  rcases hd with rfl | rfl | rfl | rfl
  · exact hexChar_ascii _ (Nat.mod_lt _ (by omega))
  · exact hexChar_ascii _ (Nat.mod_lt _ (by omega))
  · exact hexChar_ascii _ (Nat.mod_lt _ (by omega))
  · exact hexChar_ascii _ (Nat.mod_lt _ (by omega))

theorem escapeChar_ascii (c : Char) : ∀ d ∈ escapeChar c, d.toNat < 128 := by
  intro d hd
  by_cases h1 : c = '"'
  · subst h1
    rw [show escapeChar '"' = ['\\', '"'] from rfl] at hd
    exact (by decide : ∀ x ∈ ['\\', '"'], x.toNat < 128) d hd
  by_cases h2 : c = '\\'
  · subst h2
    rw [show escapeChar '\\' = ['\\', '\\'] from rfl] at hd
    exact (by decide : ∀ x ∈ ['\\', '\\'], x.toNat < 128) d hd
  by_cases h3 : c = '\x08'
  · subst h3
    rw [show escapeChar '\x08' = ['\\', 'b'] from rfl] at hd
    exact (by decide : ∀ x ∈ ['\\', 'b'], x.toNat < 128) d hd
  by_cases h4 : c = '\t'
  · subst h4
    rw [show escapeChar '\t' = ['\\', 't'] from rfl] at hd
    exact (by decide : ∀ x ∈ ['\\', 't'], x.toNat < 128) d hd
  by_cases h5 : c = '\n'
  · subst h5
    rw [show escapeChar '\n' = ['\\', 'n'] from rfl] at hd
    exact (by decide : ∀ x ∈ ['\\', 'n'], x.toNat < 128) d hd
  by_cases h6 : c = '\x0c'
  · subst h6
    rw [show escapeChar '\x0c' = ['\\', 'f'] from rfl] at hd
    exact (by decide : ∀ x ∈ ['\\', 'f'], x.toNat < 128) d hd
  by_cases h7 : c = '\r'
  · subst h7
    rw [show escapeChar '\r' = ['\\', 'r'] from rfl] at hd
    exact (by decide : ∀ x ∈ ['\\', 'r'], x.toNat < 128) d hd
  by_cases h8 : 32 ≤ c.toNat ∧ c.toNat ≤ 126
  · have hcond : (32 ≤ c.toNat && c.toNat ≤ 126) = true := by
      simp only [Bool.and_eq_true, decide_eq_true_eq]
      exact h8
    have he : escapeChar c = [c] := by
      simp [escapeChar, h1, h2, h3, h4, h5, h6, h7, hcond]
    rw [he] at hd
    rcases List.mem_singleton.mp hd with rfl
    omega
  have hcond : ¬((32 ≤ c.toNat && c.toNat ≤ 126) = true) := by
    simp only [Bool.and_eq_true, decide_eq_true_eq]
    exact h8
  by_cases h9 : c.toNat < 65536
  · have he : escapeChar c = '\\' :: 'u' :: hex4 c.toNat := by
      simp [escapeChar, h1, h2, h3, h4, h5, h6, h7, hcond, h9]
    rw [he] at hd
    rcases List.mem_cons.mp hd with rfl | hd
    · decide
    rcases List.mem_cons.mp hd with rfl | hd
    · decide
    exact mem_hex4_ascii hd
  · have he : escapeChar c =
        '\\' :: 'u' :: hex4 (55296 + (c.toNat - 65536) / 1024) ++
        '\\' :: 'u' :: hex4 (56320 + (c.toNat - 65536) % 1024) := by
      simp [escapeChar, h1, h2, h3, h4, h5, h6, h7, hcond, h9]
    rw [he] at hd
    rcases List.mem_append.mp hd with hd | hd
    · rcases List.mem_cons.mp hd with rfl | hd
      · decide
      rcases List.mem_cons.mp hd with rfl | hd
      · decide
      exact mem_hex4_ascii hd
    · rcases List.mem_cons.mp hd with rfl | hd
      · decide
      rcases List.mem_cons.mp hd with rfl | hd
      · decide
      exact mem_hex4_ascii hd

theorem escBody_ascii (s : Str) : ∀ d ∈ escBody s, d.toNat < 128 := by
  intro d hd
  simp only [escBody, List.mem_flatMap] at hd
  obtain ⟨c, _, hdc⟩ := hd
  exact escapeChar_ascii c d hdc

theorem intDec_ascii (n : Int) : ∀ d ∈ intDec n, d.toNat < 128 := by
  intro d hd
  unfold intDec at hd
  split at hd
  · rcases List.mem_cons.mp hd with rfl | hd
    · decide
    · exact isDig_toNat (natDec_digits _ _ hd)
  · exact isDig_toNat (natDec_digits _ _ hd)

mutual
/-- `json.dumps` output with `ensure_ascii=True` is pure ASCII, so its
UTF-8 byte encoding is one byte per character. -/
theorem encode_ascii : ∀ (j : Json), ∀ d ∈ encode j, d.toNat < 128
  | .null, d, hd => by
    rw [show encode .null = ['n', 'u', 'l', 'l'] from rfl] at hd
    exact (by decide : ∀ x ∈ ['n', 'u', 'l', 'l'], x.toNat < 128) d hd
  | .bool true, d, hd => by
    rw [show encode (.bool true) = ['t', 'r', 'u', 'e'] from rfl] at hd
    exact (by decide : ∀ x ∈ ['t', 'r', 'u', 'e'], x.toNat < 128) d hd
  | .bool false, d, hd => by
    rw [show encode (.bool false) = ['f', 'a', 'l', 's', 'e'] from rfl] at hd
    exact (by decide : ∀ x ∈ ['f', 'a', 'l', 's', 'e'], x.toNat < 128) d hd
  | .num n, d, hd => intDec_ascii n d hd
  | .str s, d, hd => by
    rw [show encode (.str s) = '"' :: (escBody s ++ ['"']) from rfl] at hd
    rcases List.mem_cons.mp hd with rfl | hd
    · decide
    rcases List.mem_append.mp hd with hd | hd
    · exact escBody_ascii s d hd
    · rcases List.mem_singleton.mp hd with rfl
      decide
  | .arr xs, d, hd => by
    rw [show encode (.arr xs) = '[' :: (encodeItems xs ++ [']']) from rfl] at hd
    rcases List.mem_cons.mp hd with rfl | hd
    · decide
    rcases List.mem_append.mp hd with hd | hd
    · exact encodeItems_ascii xs d hd
    · rcases List.mem_singleton.mp hd with rfl
      decide
  | .obj fs, d, hd => by
    rw [show encode (.obj fs) = '{' :: (encodeFields fs ++ ['}']) from rfl] at hd
    rcases List.mem_cons.mp hd with rfl | hd
    · decide
    rcases List.mem_append.mp hd with hd | hd
    · exact encodeFields_ascii fs d hd
    · rcases List.mem_singleton.mp hd with rfl
      decide
termination_by j _ _ => sizeOf j
theorem encodeItems_ascii : ∀ (xs : List Json), ∀ d ∈ encodeItems xs, d.toNat < 128
  | [], d, hd => by cases hd
  | [x], d, hd => by
    rw [show encodeItems [x] = encode x from rfl] at hd
    exact encode_ascii x d hd
  | x :: y :: tl, d, hd => by
    rw [show encodeItems (x :: y :: tl)
        = encode x ++ ',' :: ' ' :: encodeItems (y :: tl) from rfl] at hd
    rcases List.mem_append.mp hd with hd | hd
    · exact encode_ascii x d hd
    rcases List.mem_cons.mp hd with rfl | hd
    · decide
    rcases List.mem_cons.mp hd with rfl | hd
    · decide
    exact encodeItems_ascii (y :: tl) d hd
termination_by xs _ _ => sizeOf xs
theorem encodeFields_ascii : ∀ (fs : List (Str × Json)), ∀ d ∈ encodeFields fs, d.toNat < 128
  | [], d, hd => by cases hd
  | [(k, v)], d, hd => by
    rw [show encodeFields [(k, v)]
        = ('"' :: (escBody k ++ ['"'])) ++ ':' :: ' ' :: encode v from rfl] at hd
    rcases List.mem_append.mp hd with hd | hd
    · rcases List.mem_cons.mp hd with rfl | hd
      · decide
      rcases List.mem_append.mp hd with hd | hd
      · exact escBody_ascii k d hd
      · rcases List.mem_singleton.mp hd with rfl
        decide
    · rcases List.mem_cons.mp hd with rfl | hd
      · decide
      rcases List.mem_cons.mp hd with rfl | hd
      · decide
      exact encode_ascii v d hd
  | (k, v) :: p :: tl, d, hd => by
    rw [show encodeFields ((k, v) :: p :: tl)
        = (('"' :: (escBody k ++ ['"'])) ++ (':' :: ' ' :: encode v)) ++
          (',' :: ' ' :: encodeFields (p :: tl)) from rfl] at hd
    rcases List.mem_append.mp hd with hd | hd
    · rcases List.mem_append.mp hd with hd | hd
      · rcases List.mem_cons.mp hd with rfl | hd
        · decide
        rcases List.mem_append.mp hd with hd | hd
        · exact escBody_ascii k d hd
        · rcases List.mem_singleton.mp hd with rfl
          decide
      · rcases List.mem_cons.mp hd with rfl | hd
        · decide
        rcases List.mem_cons.mp hd with rfl | hd
        · decide
        exact encode_ascii v d hd
    · rcases List.mem_cons.mp hd with rfl | hd
      · decide
      rcases List.mem_cons.mp hd with rfl | hd
      · decide
      exact encodeFields_ascii (p :: tl) d hd
termination_by fs _ _ => sizeOf fs
end

/-! ### UTF-8 on ASCII text, and the length header -/

theorem utf8Encode_ascii (s : Str) (h : ∀ c ∈ s, c.toNat < 128) :
    utf8Encode s = s.map Char.toNat := by
  induction s with
  | nil => rfl
  | cons c tl ih =>
    have hc : c.toNat < 128 := h c (by simp)
    have he : utf8EncodeChar c = [c.toNat] := by
      simp [utf8EncodeChar, hc]
    simp only [utf8Encode, List.flatMap_cons, List.map_cons]
    rw [he]
    simp only [List.cons_append, List.nil_append, List.cons.injEq, true_and]
    exact ih fun d hd => h d (by simp [hd])

theorem utf8Decode_map_ascii (s : Str) (h : ∀ c ∈ s, c.toNat < 128) :
    utf8Decode (s.map Char.toNat) = some s := by
  induction s with
  | nil => rfl
  | cons c tl ih =>
    have hc : c.toNat < 128 := h c (by simp)
    simp only [List.map_cons, utf8Decode, if_pos hc]
    rw [ih fun d hd => h d (by simp [hd])]
    simp [Char.ofNat_toNat]

theorem leBytes4_length (n : Nat) : (leBytes4 n).length = 4 := rfl

theorem fromLE_leBytes4 (n : Nat) (h : n < 4294967296) : fromLE (leBytes4 n) = n := by
  simp only [leBytes4, fromLE]
  omega

/-! ### The framing round trip -/

/-- Reading a stream that starts with the frame `send_native_message`
produced for a dictionary message yields exactly the sent message, and
leaves exactly the bytes after the frame unread.  (Restricted to
dictionaries — the spec's Message — because a sent `None` frames as
`"null"`, which reads back as the `None` sentinel, not as a message.) -/
theorem read_send_frame (fields : List (Str × Json)) (bs : List Nat)
    (hsend : send_native_message (.obj fields) = some bs) (rest : List Nat) :
    read_native_message (bs ++ rest) = (.msg (.obj fields), rest) := by
  have hascii := encode_ascii (.obj fields)
  have hP : utf8Encode (pyJsonDumps (.obj fields)) = (encode (.obj fields)).map Char.toNat :=
    utf8Encode_ascii _ hascii
  unfold send_native_message at hsend
  rw [hP] at hsend
  set P := (encode (.obj fields)).map Char.toNat with hPdef
  have hPlen : P.length = (encode (.obj fields)).length := by simp [hPdef]
  by_cases hlt : P.length < 4294967296
  · rw [if_pos hlt] at hsend
    obtain rfl : leBytes4 P.length ++ P = bs := by
      simpa using hsend
    have hne : ¬(P.length = 0) := by
      obtain ⟨c, cs, hc, _, _⟩ := encode_head (.obj fields)
      simp [hPdef, hc]
    have htake : (leBytes4 P.length ++ (P ++ rest)).take 4 = leBytes4 P.length := by
      rw [show (4 : Nat) = (leBytes4 P.length).length from rfl, List.take_left]
    have hdrop : (leBytes4 P.length ++ (P ++ rest)).drop 4 = P ++ rest := by
      rw [show (4 : Nat) = (leBytes4 P.length).length from rfl, List.drop_left]
    have htakeP : (P ++ rest).take P.length = P := List.take_left P rest
    have hdropP : (P ++ rest).drop P.length = rest := List.drop_left P rest
    have hfle := fromLE_leBytes4 P.length hlt
    have hdec : utf8Decode P = some (encode (.obj fields)) := utf8Decode_map_ascii _ hascii
    have hloads := pyJsonLoads_encode (.obj fields)
    rw [List.append_assoc]
    simp [read_native_message, htake, hdrop, hfle, leBytes4_length, hne,
      htakeP, hdropP, hdec, hloads]
  · rw [if_neg hlt] at hsend
    cases hsend

/-! ### Host loop lemmas -/

/-- A successfully framed message occupies at least five bytes (four of
header, one of payload), so the unread remainder is strictly shorter. -/
theorem read_msg_rest_length {input : List Nat} {j : Json} {rest : List Nat}
    (h : read_native_message input = (.msg j, rest)) :
    rest.length + 5 ≤ input.length := by
  simp only [read_native_message] at h
  split at h
  · exact ReadResult.noConfusion (Prod.ext_iff.mp h).1
  · split at h
    · exact ReadResult.noConfusion (Prod.ext_iff.mp h).1
    · split at h
      · exact ReadResult.noConfusion (Prod.ext_iff.mp h).1
      · rename_i h1 h2 h3
        split at h
        · exact ReadResult.noConfusion (Prod.ext_iff.mp h).1
        · split at h
          · exact ReadResult.noConfusion (Prod.ext_iff.mp h).1
          · exact ReadResult.noConfusion (Prod.ext_iff.mp h).1
          · rw [Prod.mk.injEq] at h
            obtain ⟨-, hrest⟩ := h
            subst hrest
            simp only [List.length_take, List.length_drop] at h1 h3 ⊢
            omega

/-- `read_native_message` never yields a null message: a `"null"` payload
is `json.loads`-decoded to `None`, the no-message sentinel, so `.msg`
only ever carries a non-null value. -/
theorem read_never_msg_null (input : List Nat) (rest : List Nat) :
    read_native_message input ≠ (.msg .null, rest) := by
  intro h
  simp only [read_native_message] at h
  split at h
  · exact ReadResult.noConfusion (Prod.ext_iff.mp h).1
  · split at h
    · exact ReadResult.noConfusion (Prod.ext_iff.mp h).1
    · split at h
      · exact ReadResult.noConfusion (Prod.ext_iff.mp h).1
      · split at h
        · exact ReadResult.noConfusion (Prod.ext_iff.mp h).1
        · split at h
          · exact ReadResult.noConfusion (Prod.ext_iff.mp h).1
          · exact ReadResult.noConfusion (Prod.ext_iff.mp h).1
          · rename_i j hnotnull heq
            exact hnotnull (ReadResult.msg.inj (Prod.ext_iff.mp h).1)

theorem hostLoop_congr (env : Env) (dir : Str) :
    ∀ f f' input, input.length < f → input.length < f' →
      hostLoop env dir f input = hostLoop env dir f' input := by
  intro f
  induction f with
  | zero => intro f' input h _; omega
  | succ fb ih =>
    intro f' input h h'
    cases f' with
    | zero => omega
    | succ fb' =>
      cases hr : read_native_message input with
      | mk res rest =>
        cases res with
        | eos => simp [hostLoop, hr]
        | fault => simp [hostLoop, hr]
        | msg j =>
          cases j with
          | obj fields =>
            have hlen := read_msg_rest_length hr
            simp only [hostLoop, hr]
            rw [ih fb' rest (by omega) (by omega)]
          | null => simp [hostLoop, hr]
          | bool b => simp [hostLoop, hr]
          | num n => simp [hostLoop, hr]
          | str s => simp [hostLoop, hr]
          | arr xs => simp [hostLoop, hr]

/-- One loop iteration on a decoded dictionary: exactly one response is
emitted, then the loop continues on the unread remainder. -/
theorem run_native_host_step (input : List Nat) (env : Env) (dir : Str)
    (fields : List (Str × Json)) (rest : List Nat)
    (h : read_native_message input = (.msg (.obj fields), rest)) :
    run_native_host input env dir =
      ((dispatchMessage fields dir env).1 :: (run_native_host rest env dir).1,
       (run_native_host rest env dir).2) := by
  have hlen := read_msg_rest_length h
  have hstep : hostLoop env dir (input.length + 1) input
      = ((dispatchMessage fields dir env).1 :: (hostLoop env dir input.length rest).1,
         (hostLoop env dir input.length rest).2) := by
    simp only [hostLoop, h]
  show hostLoop env dir (input.length + 1) input = _
  rw [hstep, hostLoop_congr env dir input.length (rest.length + 1) rest (by omega) (by omega)]
  rfl

/-- End-of-stream from the reader ends the loop cleanly. -/
theorem run_native_host_eos (input : List Nat) (env : Env) (dir : Str)
    (h : (read_native_message input).1 = .eos) :
    run_native_host input env dir = ([], .clean) := by
  unfold run_native_host
  cases hr : read_native_message input with
  | mk res rest =>
    rw [hr] at h
    cases res with
    | eos => simp [hostLoop, hr]
    | fault => cases h
    | msg j => cases h

/-- An unhandled decode exception ends the run with a fault and no
response. -/
theorem run_native_host_fault (input : List Nat) (env : Env) (dir : Str)
    (h : (read_native_message input).1 = .fault) :
    run_native_host input env dir = ([], .fault) := by
  unfold run_native_host
  cases hr : read_native_message input with
  | mk res rest =>
    rw [hr] at h
    cases res with
    | eos => cases h
    | fault => simp [hostLoop, hr]
    | msg j => cases h

/-- A decoded payload that is not a dictionary fault-stops the loop with
no response: probing `.get` raises `AttributeError`.  (The null case is
vacuous: the reader never yields a null message.) -/
theorem run_native_host_nonobj (input : List Nat) (env : Env) (dir : Str)
    (j : Json) (rest : List Nat) (h : read_native_message input = (.msg j, rest))
    (hobj : ∀ fs, j ≠ .obj fs) :
    run_native_host input env dir = ([], .fault) := by
  unfold run_native_host
  cases j with
  | obj fields => exact absurd rfl (hobj fields)
  | null => exact absurd h (read_never_msg_null input rest)
  | bool b => simp [hostLoop, h]
  | num n => simp [hostLoop, h]
  | str s => simp [hostLoop, h]
  | arr xs => simp [hostLoop, h]

/-! ### Response shape -/

/-- A well-formed Response dictionary: exactly the two fields `status`
and `message`, in that order, the first `"ok"` or `"error"`, the second
some string. -/
def isWellFormedResponse (r : List (Str × Json)) : Prop :=
  ∃ st ms, (st = "ok".data ∨ st = "error".data) ∧
    r = [("status".data, .str st), ("message".data, .str ms)]

/-- The fixed "Missing page URL" error response. -/
def missingUrlResponse : List (Str × Json) :=
  [("status".data, .str "error".data),
   ("message".data, .str "Missing page URL for yt-dlp.".data)]

/-- `handle_download_request` on an invalid `pageUrl` (absent, not a
string, or blank): the fixed error response, and no spawn. -/
theorem handle_invalid (m : List (Str × Json)) (dir : Str) (env : Env)
    (h : ∀ s, pyDictGet m "pageUrl".data = some (.str s) → pyStrip s = []) :
    handle_download_request m dir env = (missingUrlResponse, []) := by
  cases hget : pyDictGet m "pageUrl".data with
  | none => simp [handle_download_request, hget, missingUrlResponse]
  | some j =>
    cases j with
    | str s =>
      have hs := h s hget
      simp [handle_download_request, hget, hs, missingUrlResponse]
    | null => simp [handle_download_request, hget, missingUrlResponse]
    | bool b => simp [handle_download_request, hget, missingUrlResponse]
    | num n => simp [handle_download_request, hget, missingUrlResponse]
    | arr xs => simp [handle_download_request, hget, missingUrlResponse]
    | obj fs => simp [handle_download_request, hget, missingUrlResponse]

/-- `handle_download_request` when the url is valid but the resolved
executable does not exist: an error naming the path, and no spawn. -/
theorem handle_notfound (m : List (Str × Json)) (dir : Str) (env : Env) (s : Str)
    (hget : pyDictGet m "pageUrl".data = some (.str s)) (hs : pyStrip s ≠ [])
    (hex : env.pathExists (resolve_yt_dlp_path env.isNT dir) = false) :
    handle_download_request m dir env =
      ([("status".data, .str "error".data),
        ("message".data,
         .str ("yt-dlp was not found at ".data ++
           resolve_yt_dlp_path env.isNT dir ++ ['.']))], []) := by
  simp [handle_download_request, hget, hs, hex]

/-- `handle_download_request` when the url is valid and the executable
exists: exactly one child process, with the fixed argument list and the
host's directory as working directory, and a response decided by the
exit status. -/
theorem handle_found (m : List (Str × Json)) (dir : Str) (env : Env) (s : Str)
    (hget : pyDictGet m "pageUrl".data = some (.str s)) (hs : pyStrip s ≠ [])
    (hex : env.pathExists (resolve_yt_dlp_path env.isNT dir) = true) :
    handle_download_request m dir env =
      (let completed_process :=
        env.run (build_yt_dlp_command (resolve_yt_dlp_path env.isNT dir) s) dir
      if completed_process.returncode ≠ 0 then
        let error_output :=
          if pyStrip completed_process.stderr ≠ [] then pyStrip completed_process.stderr
          else pyStrip completed_process.stdout
        [("status".data, .str "error".data),
         ("message".data,
          .str (if error_output ≠ [] then error_output
                else "yt-dlp failed with an unknown error.".data))]
      else
        [("status".data, .str "ok".data),
         ("message".data, .str "yt-dlp finished downloading the reel.".data)],
       [Spawn.mk (build_yt_dlp_command (resolve_yt_dlp_path env.isNT dir) s) dir]) := by
  simp only [handle_download_request, hget, hs, hex]
  by_cases h0 : (env.run (build_yt_dlp_command (resolve_yt_dlp_path env.isNT dir) s)
      dir).returncode = 0 <;>
    simp [handle_download_request, hget, hs, hex, h0]

theorem handle_download_request_shape (m : List (Str × Json)) (dir : Str) (env : Env) :
    isWellFormedResponse (handle_download_request m dir env).1 := by
  by_cases hvalid : ∃ s, pyDictGet m "pageUrl".data = some (.str s) ∧ pyStrip s ≠ []
  · obtain ⟨s, hget, hs⟩ := hvalid
    cases hex : env.pathExists (resolve_yt_dlp_path env.isNT dir) with
    | false =>
      rw [handle_notfound m dir env s hget hs hex]
      exact ⟨_, _, Or.inr rfl, rfl⟩
    | true =>
      rw [handle_found m dir env s hget hs hex]
      by_cases hrc : (env.run (build_yt_dlp_command (resolve_yt_dlp_path env.isNT dir) s)
          dir).returncode ≠ 0
      · simp only [if_pos hrc]
        exact ⟨_, _, Or.inr rfl, rfl⟩
      · simp only [if_neg hrc]
        exact ⟨_, _, Or.inl rfl, rfl⟩
  · push_neg at hvalid
    rw [handle_invalid m dir env hvalid]
    exact ⟨_, _, Or.inr rfl, rfl⟩

theorem dispatchMessage_shape (fields : List (Str × Json)) (dir : Str) (env : Env) :
    isWellFormedResponse (dispatchMessage fields dir env).1 := by
  unfold dispatchMessage
  split
  · split
    · exact handle_download_request_shape _ _ _
    · exact ⟨_, _, Or.inr rfl, rfl⟩
  · exact ⟨_, _, Or.inr rfl, rfl⟩

theorem hostLoop_shape (env : Env) (dir : Str) :
    ∀ fuel input r, r ∈ (hostLoop env dir fuel input).1 → isWellFormedResponse r := by
  intro fuel
  induction fuel with
  | zero => intro input r hr; simp [hostLoop] at hr
  | succ fb ih =>
    intro input r hr
    cases hread : read_native_message input with
    | mk res rest =>
      cases res with
      | eos => simp [hostLoop, hread] at hr
      | fault => simp [hostLoop, hread] at hr
      | msg j =>
        cases j with
        | obj fields =>
          simp only [hostLoop, hread] at hr
          rcases List.mem_cons.mp hr with rfl | hr
          · exact dispatchMessage_shape fields dir env
          · exact ih rest r hr
        | null => simp [hostLoop, hread] at hr
        | bool b => simp [hostLoop, hread] at hr
        | num n => simp [hostLoop, hread] at hr
        | str s => simp [hostLoop, hread] at hr
        | arr xs => simp [hostLoop, hread] at hr

theorem run_native_host_shape (input : List Nat) (env : Env) (dir : Str) :
    ∀ r ∈ (run_native_host input env dir).1, isWellFormedResponse r := by
  intro r hr
  exact hostLoop_shape env dir (input.length + 1) input r hr

/-! ### When the reader signals "no message" -/

/-- The exact "no message" condition of `read_native_message`: a short
length header, a zero length, a truncated payload, or a well-framed
payload decoding to JSON null (`json.loads` then returns `None`, the
very sentinel the three early returns produce) — and nothing else. -/
theorem read_eos_characterization (input : List Nat) :
    (read_native_message input).1 = .eos ↔
      (input.length < 4 ∨ fromLE (input.take 4) = 0 ∨
        input.length < 4 + fromLE (input.take 4) ∨
        (∃ text, utf8Decode ((input.drop 4).take (fromLE (input.take 4))) = some text ∧
          pyJsonLoads text = some Json.null)) := by
  have hlt : (input.take 4).length = min 4 input.length := List.length_take 4 input
  by_cases h1 : (input.take 4).length < 4
  · simp only [read_native_message, if_pos h1]
    constructor
    · intro _
      left
      omega
    · intro _
      trivial
  · simp only [read_native_message, if_neg h1]
    by_cases h2 : fromLE (input.take 4) = 0
    · simp only [if_pos h2]
      constructor
      · intro _
        right
        left
        exact h2
      · intro _
        trivial
    · simp only [if_neg h2]
      by_cases h3 : ((input.drop 4).take (fromLE (input.take 4))).length <
          fromLE (input.take 4)
      · simp only [if_pos h3]
        constructor
        · intro _
          right
          right
          left
          simp only [List.length_take, List.length_drop] at h3
          omega
        · intro _
          trivial
      · simp only [if_neg h3]
        simp only [List.length_take, List.length_drop] at h3
        have hfalse : ¬(input.length < 4 ∨ fromLE (input.take 4) = 0 ∨
            input.length < 4 + fromLE (input.take 4)) := by
          push_neg
          refine ⟨by omega, h2, by omega⟩
        cases hu : utf8Decode ((input.drop 4).take (fromLE (input.take 4))) with
        | none =>
          simp only [hu]
          constructor
          · intro hc
            cases hc
          · intro hr
            rcases hr with hr | hr | hr | ⟨t, ht, hlt'⟩
            · exact absurd (Or.inl hr) hfalse
            · exact absurd (Or.inr (Or.inl hr)) hfalse
            · exact absurd (Or.inr (Or.inr hr)) hfalse
            · simp at ht
        | some text =>
          cases hl : pyJsonLoads text with
          | none =>
            simp only [hl]
            constructor
            · intro hc
              cases hc
            · intro hr
              rcases hr with hr | hr | hr | ⟨t, ht, hlt'⟩
              · exact absurd (Or.inl hr) hfalse
              · exact absurd (Or.inr (Or.inl hr)) hfalse
              · exact absurd (Or.inr (Or.inr hr)) hfalse
              · injection ht with he
                subst he
                rw [hl] at hlt'
                exact Option.noConfusion hlt'
          | some j =>
            cases j with
            | null =>
              simp only [hl]
              constructor
              · intro _
                exact Or.inr (Or.inr (Or.inr ⟨text, rfl, hl⟩))
              · intro _
                trivial
            | bool b =>
              simp only [hl]
              constructor
              · intro hc
                cases hc
              · intro hr
                rcases hr with hr | hr | hr | ⟨t, ht, hlt'⟩
                · exact absurd (Or.inl hr) hfalse
                · exact absurd (Or.inr (Or.inl hr)) hfalse
                · exact absurd (Or.inr (Or.inr hr)) hfalse
                · injection ht with he
                  subst he
                  rw [hl] at hlt'
                  injection hlt' with he2
                  exact Json.noConfusion he2
            | num n =>
              simp only [hl]
              constructor
              · intro hc
                cases hc
              · intro hr
                rcases hr with hr | hr | hr | ⟨t, ht, hlt'⟩
                · exact absurd (Or.inl hr) hfalse
                · exact absurd (Or.inr (Or.inl hr)) hfalse
                · exact absurd (Or.inr (Or.inr hr)) hfalse
                · injection ht with he
                  subst he
                  rw [hl] at hlt'
                  injection hlt' with he2
                  exact Json.noConfusion he2
            | str s =>
              simp only [hl]
              constructor
              · intro hc
                cases hc
              · intro hr
                rcases hr with hr | hr | hr | ⟨t, ht, hlt'⟩
                · exact absurd (Or.inl hr) hfalse
                · exact absurd (Or.inr (Or.inl hr)) hfalse
                · exact absurd (Or.inr (Or.inr hr)) hfalse
                · injection ht with he
                  subst he
                  rw [hl] at hlt'
                  injection hlt' with he2
                  exact Json.noConfusion he2
            | arr xs =>
              simp only [hl]
              constructor
              · intro hc
                cases hc
              · intro hr
                rcases hr with hr | hr | hr | ⟨t, ht, hlt'⟩
                · exact absurd (Or.inl hr) hfalse
                · exact absurd (Or.inr (Or.inl hr)) hfalse
                · exact absurd (Or.inr (Or.inr hr)) hfalse
                · injection ht with he
                  subst he
                  rw [hl] at hlt'
                  injection hlt' with he2
                  exact Json.noConfusion he2
            | obj fs =>
              simp only [hl]
              constructor
              · intro hc
                cases hc
              · intro hr
                rcases hr with hr | hr | hr | ⟨t, ht, hlt'⟩
                · exact absurd (Or.inl hr) hfalse
                · exact absurd (Or.inr (Or.inl hr)) hfalse
                · exact absurd (Or.inr (Or.inr hr)) hfalse
                · injection ht with he
                  subst he
                  rw [hl] at hlt'
                  injection hlt' with he2
                  exact Json.noConfusion he2

/-! ### The claims -/

/-- Claim C1: framing round-trip — writing any JSON-serializable message
(a string-keyed mapping) with `send_native_message` and reading the
produced bytes with `read_native_message` yields the message again (same
keys, same values), both for a single frame followed by arbitrary
further bytes and for two frames written in sequence and read back in
order. -/
theorem framing_round_trip :
    (∀ (fields : List (Str × Json)) (bs rest : List Nat),
      send_native_message (.obj fields) = some bs →
      read_native_message (bs ++ rest) = (.msg (.obj fields), rest)) ∧
    (∀ (f1 f2 : List (Str × Json)) (bs1 bs2 : List Nat),
      send_native_message (.obj f1) = some bs1 →
      send_native_message (.obj f2) = some bs2 →
      read_native_message (bs1 ++ bs2) = (.msg (.obj f1), bs2) ∧
      read_native_message bs2 = (.msg (.obj f2), [])) := by
  constructor
  · intro fields bs rest h
    exact read_send_frame fields bs h rest
  · intro f1 f2 bs1 bs2 h1 h2
    refine ⟨read_send_frame f1 bs1 h1 bs2, ?_⟩
    have h3 := read_send_frame f2 bs2 h2 []
    rwa [List.append_nil] at h3

theorem framing_round_trip_witness :
    read_native_message (([8, 0, 0, 0, 123, 34, 97, 34, 58, 32, 49, 125] : List Nat) ++ []) =
      (.msg (.obj [(['a'], .num 1)]), []) :=
  framing_round_trip.1 [(['a'], .num 1)]
    [8, 0, 0, 0, 123, 34, 97, 34, 58, 32, 49, 125] [] rfl

/-- Claim C2: every response the host loop hands to the sender has
exactly the two fields `status` (`"ok"` or `"error"`) and `message` (a
string); and each decoded dictionary message yields exactly one response,
emitted before the loop continues — none omitted, duplicated, or
batched. -/
theorem response_shape_and_pairing :
    (∀ (input : List Nat) (env : Env) (dir : Str),
      ∀ r ∈ (run_native_host input env dir).1, isWellFormedResponse r) ∧
    (∀ (input : List Nat) (env : Env) (dir : Str)
      (fields : List (Str × Json)) (rest : List Nat),
      read_native_message input = (.msg (.obj fields), rest) →
      run_native_host input env dir =
        ((dispatchMessage fields dir env).1 :: (run_native_host rest env dir).1,
         (run_native_host rest env dir).2)) :=
  ⟨fun input env dir => run_native_host_shape input env dir,
   fun input env dir fields rest h => run_native_host_step input env dir fields rest h⟩

theorem response_shape_and_pairing_witness :
    run_native_host ([2, 0, 0, 0, 123, 125] : List Nat)
        ⟨false, fun _ => false, fun _ _ => ⟨1, [], []⟩⟩ [] =
      ((dispatchMessage [] [] ⟨false, fun _ => false, fun _ _ => ⟨1, [], []⟩⟩).1 ::
        (run_native_host [] ⟨false, fun _ => false, fun _ _ => ⟨1, [], []⟩⟩ []).1,
       (run_native_host [] ⟨false, fun _ => false, fun _ _ => ⟨1, [], []⟩⟩ []).2) :=
  response_shape_and_pairing.2 [2, 0, 0, 0, 123, 125]
    ⟨false, fun _ => false, fun _ _ => ⟨1, [], []⟩⟩ [] [] [] rfl

/-- Claim C3 (counterexample): the claim's "exactly" is false of the
program.  The well-framed input `04 00 00 00` `6e 75 6c 6c` — a 4-byte
payload spelling `"null"` — yields the "no message" sentinel
(`json.loads(b"null")` returns `None`, the very value the three early
returns produce), even though none of the claim's three conditions
holds: the input has 8 ≥ 4 bytes, the decoded length is 4 ≠ 0, and all
4 payload bytes are present. -/
theorem read_no_message_null_refutes :
    (read_native_message ([4, 0, 0, 0, 110, 117, 108, 108] : List Nat)).1 = .eos ∧
    ¬(([4, 0, 0, 0, 110, 117, 108, 108] : List Nat).length < 4 ∨
      fromLE (([4, 0, 0, 0, 110, 117, 108, 108] : List Nat).take 4) = 0 ∨
      ([4, 0, 0, 0, 110, 117, 108, 108] : List Nat).length <
        4 + fromLE (([4, 0, 0, 0, 110, 117, 108, 108] : List Nat).take 4)) :=
  ⟨rfl, by decide⟩

/-- Claim C3 (amended): `read_native_message` signals "no message"
(rather than raising) exactly when the input has fewer than 4 header
bytes, or the decoded length is zero, or fewer than that many payload
bytes follow, or the payload is well framed and decodes to JSON null
(`json.loads` then returns `None`, the same sentinel); in particular the
four bytes `00 00 00 00` and the already-exhausted input both yield "no
message". -/
theorem read_no_message_with_null :
    (∀ input : List Nat,
      (read_native_message input).1 = .eos ↔
        (input.length < 4 ∨ fromLE (input.take 4) = 0 ∨
          input.length < 4 + fromLE (input.take 4) ∨
          (∃ text, utf8Decode ((input.drop 4).take (fromLE (input.take 4))) = some text ∧
            pyJsonLoads text = some Json.null))) ∧
    (read_native_message ([0, 0, 0, 0] : List Nat)).1 = .eos ∧
    (read_native_message ([] : List Nat)).1 = .eos :=
  ⟨read_eos_characterization, rfl, rfl⟩

/-- Claim C4: a download request whose `pageUrl` is absent, not a string,
or blank gets exactly the fixed "Missing page URL for yt-dlp." error
response, and no child process is spawned. -/
theorem download_missing_url :
    ∀ (fields : List (Str × Json)) (dir : Str) (env : Env),
      (pyDictGet fields "pageUrl".data = none ∨
       (∃ j, pyDictGet fields "pageUrl".data = some j ∧ ∀ s, j ≠ .str s) ∨
       (∃ s, pyDictGet fields "pageUrl".data = some (.str s) ∧ pyStrip s = [])) →
      handle_download_request fields dir env =
        ([("status".data, .str "error".data),
          ("message".data, .str "Missing page URL for yt-dlp.".data)], []) := by
  intro fields dir env h
  have hcond : ∀ s, pyDictGet fields "pageUrl".data = some (.str s) → pyStrip s = [] := by
    intro s hs
    rcases h with h | ⟨j, hj, hne⟩ | ⟨s2, hs2, hblank⟩
    · rw [h] at hs
      cases hs
    · rw [hj] at hs
      injection hs with he
      exact absurd he (hne s)
    · rw [hs2] at hs
      injection hs with he
      injection he with he2
      exact he2 ▸ hblank
  rw [handle_invalid fields dir env hcond]
  rfl

theorem download_missing_url_witness :
    handle_download_request
        [("action".data, .str "download".data), ("pageUrl".data, .str [])] []
        ⟨false, fun _ => false, fun _ _ => ⟨1, [], []⟩⟩ =
      ([("status".data, .str "error".data),
        ("message".data, .str "Missing page URL for yt-dlp.".data)], []) :=
  download_missing_url
    [("action".data, .str "download".data), ("pageUrl".data, .str [])] []
    ⟨false, fun _ => false, fun _ _ => ⟨1, [], []⟩⟩
    (Or.inr (Or.inr ⟨[], rfl, rfl⟩))

/-- Claim C5: the downloader path is the host's own directory joined
with `yt-dlp.exe` on Windows (`os.name == "nt"`) and `yt-dlp` otherwise;
and when the resolved path does not exist, the handler answers with a
`status = "error"` response whose message contains that resolved path,
spawning nothing. -/
theorem download_executable_resolution :
    (∀ (isNT : Bool) (dir : Str),
      resolve_yt_dlp_path isNT dir =
        pyPathJoin isNT dir (if isNT then "yt-dlp.exe".data else "yt-dlp".data)) ∧
    (∀ (fields : List (Str × Json)) (dir : Str) (env : Env) (s : Str),
      pyDictGet fields "pageUrl".data = some (.str s) → pyStrip s ≠ [] →
      env.pathExists (resolve_yt_dlp_path env.isNT dir) = false →
      handle_download_request fields dir env =
        ([("status".data, .str "error".data),
          ("message".data,
           .str ("yt-dlp was not found at ".data ++
             resolve_yt_dlp_path env.isNT dir ++ ['.']))], [])) :=
  ⟨fun _ _ => rfl,
   fun fields dir env s hget hs hex => handle_notfound fields dir env s hget hs hex⟩

theorem download_executable_resolution_witness :
    handle_download_request [("pageUrl".data, .str "https://x".data)] "/h".data
        ⟨false, fun _ => false, fun _ _ => ⟨1, [], []⟩⟩ =
      ([("status".data, .str "error".data),
        ("message".data,
         .str ("yt-dlp was not found at ".data ++
           resolve_yt_dlp_path false "/h".data ++ ['.']))], []) :=
  download_executable_resolution.2 [("pageUrl".data, .str "https://x".data)]
    "/h".data ⟨false, fun _ => false, fun _ _ => ⟨1, [], []⟩⟩
    "https://x".data rfl (by decide) rfl

/-- Claim C6: for a valid download request whose resolved executable
exists, exactly one child process is launched, with exactly the argument
list `[executablePath, "--cookies-from-browser", "chrome", pageUrl]` and
the host's own directory as working directory (output capture as text
and the synchronous wait are carried by `Env.run` returning the
completed `ProcResult`). -/
theorem download_spawn_exact :
    (∀ (p u : Str), build_yt_dlp_command p u =
       [p, "--cookies-from-browser".data, "chrome".data, u]) ∧
    (∀ (fields : List (Str × Json)) (dir : Str) (env : Env) (s : Str),
      pyDictGet fields "pageUrl".data = some (.str s) → pyStrip s ≠ [] →
      env.pathExists (resolve_yt_dlp_path env.isNT dir) = true →
      (handle_download_request fields dir env).2 =
        [Spawn.mk
          [resolve_yt_dlp_path env.isNT dir, "--cookies-from-browser".data,
           "chrome".data, s] dir]) := by
  refine ⟨fun p u => rfl, fun fields dir env s hget hs hex => ?_⟩
  rw [handle_found fields dir env s hget hs hex]
  by_cases h0 : (env.run (build_yt_dlp_command (resolve_yt_dlp_path env.isNT dir) s)
      dir).returncode = 0 <;>
    simp [h0, build_yt_dlp_command]

theorem download_spawn_exact_witness :
    (handle_download_request [("pageUrl".data, .str "https://x".data)] "/h".data
        ⟨false, fun _ => true, fun _ _ => ⟨0, [], []⟩⟩).2 =
      [Spawn.mk
        [resolve_yt_dlp_path false "/h".data, "--cookies-from-browser".data,
         "chrome".data, "https://x".data] "/h".data] :=
  download_spawn_exact.2 [("pageUrl".data, .str "https://x".data)] "/h".data
    ⟨false, fun _ => true, fun _ _ => ⟨0, [], []⟩⟩ "https://x".data
    rfl (by decide) rfl

/-- Claim C7: when the child exits nonzero, the response is an error
whose message is the trimmed stderr, else the trimmed stdout, else the
fixed fallback text. -/
theorem download_failure_message :
    ∀ (fields : List (Str × Json)) (dir : Str) (env : Env) (s : Str),
      pyDictGet fields "pageUrl".data = some (.str s) → pyStrip s ≠ [] →
      env.pathExists (resolve_yt_dlp_path env.isNT dir) = true →
      (env.run (build_yt_dlp_command (resolve_yt_dlp_path env.isNT dir) s)
        dir).returncode ≠ 0 →
      (handle_download_request fields dir env).1 =
        [("status".data, .str "error".data),
         ("message".data, .str (
            if pyStrip (env.run (build_yt_dlp_command
                (resolve_yt_dlp_path env.isNT dir) s) dir).stderr ≠ [] then
              pyStrip (env.run (build_yt_dlp_command
                (resolve_yt_dlp_path env.isNT dir) s) dir).stderr
            else if pyStrip (env.run (build_yt_dlp_command
                (resolve_yt_dlp_path env.isNT dir) s) dir).stdout ≠ [] then
              pyStrip (env.run (build_yt_dlp_command
                (resolve_yt_dlp_path env.isNT dir) s) dir).stdout
            else "yt-dlp failed with an unknown error.".data))] := by
  intro fields dir env s hget hs hex hrc
  rw [handle_found fields dir env s hget hs hex]
  by_cases h1 : pyStrip (env.run (build_yt_dlp_command
      (resolve_yt_dlp_path env.isNT dir) s) dir).stderr = [] <;>
    by_cases h2 : pyStrip (env.run (build_yt_dlp_command
      (resolve_yt_dlp_path env.isNT dir) s) dir).stdout = [] <;>
    simp [hrc, h1, h2]

theorem download_failure_message_witness :
    (handle_download_request [("pageUrl".data, .str "https://x".data)] "/h".data
        ⟨false, fun _ => true, fun _ _ => ⟨1, "out".data, "network error".data⟩⟩).1 =
      [("status".data, .str "error".data),
       ("message".data, .str "network error".data)] := by
  have h := download_failure_message [("pageUrl".data, .str "https://x".data)]
    "/h".data ⟨false, fun _ => true, fun _ _ => ⟨1, "out".data, "network error".data⟩⟩
    "https://x".data rfl (by decide) rfl (by decide)
  rw [h]
  rfl

/-- Claim C8: when the child exits with status zero, the response is
exactly `{status: "ok", message: "yt-dlp finished downloading the
reel."}`, whatever the child wrote to its streams. -/
theorem download_success_response :
    ∀ (fields : List (Str × Json)) (dir : Str) (env : Env) (s : Str),
      pyDictGet fields "pageUrl".data = some (.str s) → pyStrip s ≠ [] →
      env.pathExists (resolve_yt_dlp_path env.isNT dir) = true →
      (env.run (build_yt_dlp_command (resolve_yt_dlp_path env.isNT dir) s)
        dir).returncode = 0 →
      (handle_download_request fields dir env).1 =
        [("status".data, .str "ok".data),
         ("message".data, .str "yt-dlp finished downloading the reel.".data)] := by
  intro fields dir env s hget hs hex hrc
  rw [handle_found fields dir env s hget hs hex]
  simp [hrc]

theorem download_success_response_witness :
    (handle_download_request [("pageUrl".data, .str "https://x".data)] "/h".data
        ⟨false, fun _ => true, fun _ _ => ⟨0, "done".data, "warnings".data⟩⟩).1 =
      [("status".data, .str "ok".data),
       ("message".data, .str "yt-dlp finished downloading the reel.".data)] :=
  download_success_response [("pageUrl".data, .str "https://x".data)] "/h".data
    ⟨false, fun _ => true, fun _ _ => ⟨0, "done".data, "warnings".data⟩⟩
    "https://x".data rfl (by decide) rfl rfl

/-- Claim C9: any decoded dictionary whose `action` is anything other
than the string `"download"` — another string, a non-string, or missing
— gets exactly the fixed "Unknown action received." error response, and
nothing is spawned. -/
theorem unknown_action_response :
    ∀ (fields : List (Str × Json)) (dir : Str) (env : Env),
      pyDictGet fields "action".data ≠ some (.str "download".data) →
      dispatchMessage fields dir env =
        ([("status".data, .str "error".data),
          ("message".data, .str "Unknown action received.".data)], []) := by
  intro fields dir env h
  cases hget : pyDictGet fields "action".data with
  | none => simp [dispatchMessage, hget]
  | some j =>
    cases j with
    | str a =>
      have hne : ¬ a = "download".data := by
        intro e
        exact h (by rw [hget, e])
      simp [dispatchMessage, hget, hne]
    | null => simp [dispatchMessage, hget]
    | bool b => simp [dispatchMessage, hget]
    | num n => simp [dispatchMessage, hget]
    | arr xs => simp [dispatchMessage, hget]
    | obj fs => simp [dispatchMessage, hget]

theorem unknown_action_response_witness :
    dispatchMessage [("action".data, .str "ping".data)] []
        ⟨false, fun _ => false, fun _ _ => ⟨1, [], []⟩⟩ =
      ([("status".data, .str "error".data),
        ("message".data, .str "Unknown action received.".data)], []) :=
  unknown_action_response [("action".data, .str "ping".data)] []
    ⟨false, fun _ => false, fun _ _ => ⟨1, [], []⟩⟩
    (by
      intro h
      have h2 : some (Json.str "ping".data) = some (Json.str "download".data) := h
      injection h2 with h3
      injection h3 with h4
      simp at h4)

/-- Claim C10 (counterexample): the claim is false for null, which it
explicitly includes.  On the well-framed input `04 00 00 00` `6e 75 6c
6c` — payload `"null"` — the host does not fault: `json.loads` returns
`None`, `if incoming_message is None` breaks the loop before any `.get`
probe, and the run ends cleanly (with no response). -/
theorem nonobject_null_ends_cleanly :
    run_native_host ([4, 0, 0, 0, 110, 117, 108, 108] : List Nat)
        ⟨false, fun _ => false, fun _ _ => ⟨1, [], []⟩⟩ [] = ([], .clean) ∧
    HostOutcome.clean ≠ HostOutcome.fault :=
  ⟨rfl, fun h => HostOutcome.noConfusion h⟩

/-- Claim C10 (amended): a message the reader actually decodes
(`json.loads` returned a value other than `None`) that is not an object
makes the host loop fault — the `.get` probe raises — and produce no
response at all, and the unknown-action reply can only arise from an
object payload; a well-framed null payload, by contrast, comes back as
the `None` sentinel, so the loop breaks cleanly, also with no
response. -/
theorem nonobject_payload_behavior :
    (∀ (input : List Nat) (env : Env) (dir : Str) (j : Json) (rest : List Nat),
      read_native_message input = (.msg j, rest) →
      (∀ fs, j ≠ .obj fs) →
      run_native_host input env dir = ([], .fault)) ∧
    (∀ (input : List Nat) (env : Env) (dir : Str),
      (read_native_message input).1 = .eos →
      run_native_host input env dir = ([], .clean)) :=
  ⟨fun input env dir j rest h hobj => run_native_host_nonobj input env dir j rest h hobj,
   fun input env dir h => run_native_host_eos input env dir h⟩

theorem nonobject_payload_behavior_witness :
    run_native_host ([3, 0, 0, 0, 91, 49, 93] : List Nat)
        ⟨false, fun _ => false, fun _ _ => ⟨1, [], []⟩⟩ [] = ([], .fault) :=
  nonobject_payload_behavior.1 [3, 0, 0, 0, 91, 49, 93]
    ⟨false, fun _ => false, fun _ _ => ⟨1, [], []⟩⟩ [] (.arr [.num 1]) []
    rfl (fun _ h => Json.noConfusion h)

end ReelDL
